import Mathlib

/-!
Verification of the restaurant-management backend's waiting-queue module
(backend/routes/queue.py) and document-store accessors (backend/mongo.py).

The queue store is modelled as a list of rows plus a logical clock supplying
the joined_at timestamps (datetime.utcnow in the source, assumed strictly
increasing across requests).  SQLAlchemy merge-by-primary-key is modelled as
remove-row-with-same-id-then-insert.  Floats (estimated wait minutes) are
modelled as exact integers.
-/

namespace RMS

/-- Row of the queue table (models.QueueEntry as used by routes/queue.py).
The position is a count+1, hence a Nat; estimated_wait_minutes is
float(position*60) in the source, modelled exactly as an Int. -/
structure QueueEntry where
  id : String
  name : String
  guests : Int
  notification_method : String
  contact : String
  hall : String
  segment : String
  position : Nat
  estimated_wait_minutes : Int
  joined_at : Nat
  queue_date : String
  notified_at_5_min : Bool
deriving DecidableEq

/-- The queue database: the rows of the QueueEntry table plus the logical
clock used for joined_at timestamps (datetime.utcnow in the source). -/
structure Store where
  entries : List QueueEntry
  now : Nat
deriving DecidableEq

/-- The filter used by _next_position and _resequence: membership of a row in
the (queue_date, guests, hall, segment) group. -/
def inGroup (queue_date : String) (guests : Int) (hall segment : String)
    (e : QueueEntry) : Bool :=
  e.queue_date == queue_date && e.guests == guests && e.hall == hall && e.segment == segment

/-- The rows of one (queue_date, guests, hall, segment) group. -/
def groupRows (st : Store) (queue_date : String) (guests : Int) (hall segment : String) :
    List QueueEntry :=
  st.entries.filter (inGroup queue_date guests hall segment)

/-- queue.py lines 115-124: _next_position counts the rows of the group and
returns count + 1. -/
def next_position (st : Store) (queue_date : String) (guests : Int) (hall segment : String) :
    Nat :=
  (groupRows st queue_date guests hall segment).length + 1

/-- The sort relation used by _resequence (order_by joined_at asc). -/
def joinedLe (a b : QueueEntry) : Prop :=
  a.joined_at ≤ b.joined_at

instance : DecidableRel joinedLe := fun a b => Nat.decLe a.joined_at b.joined_at

instance : IsTotal QueueEntry joinedLe := ⟨fun a b => Nat.le_total a.joined_at b.joined_at⟩

instance : IsTrans QueueEntry joinedLe := ⟨fun _ _ _ => Nat.le_trans⟩

/-- queue.py line 139: the loop for idx, row in enumerate(rows, start=1),
setting row.position = idx and row.estimated_wait_minutes = float(idx*60). -/
def renumber : Nat → List QueueEntry → List QueueEntry
  | _, [] => []
  | idx, e :: rest =>
      { e with position := idx, estimated_wait_minutes := (idx : Int) * 60 } :: renumber (idx + 1) rest

/-- queue.py lines 127-143: _resequence fetches the group's rows ordered by
joined_at ascending and rewrites position/estimated_wait_minutes in place.
In the list model the rewritten group rows replace the old ones. -/
def resequence (st : Store) (queue_date : String) (guests : Int) (hall segment : String) :
    Store :=
  let rows := (groupRows st queue_date guests hall segment).insertionSort joinedLe
  { st with
    entries := st.entries.filter (fun e => !(inGroup queue_date guests hall segment e)) ++
      renumber 1 rows }

/-- The JSON body of a POST /queue/join request: the eight required keys are
present or absent (Option), notifiedAt5Min already passed through bool() with
default False (queue.py line 70). -/
structure JoinPayload where
  id : Option String
  name : Option String
  guests : Option Int
  notificationMethod : Option String
  contact : Option String
  hall : Option String
  segment : Option String
  queueDate : Option String
  notifiedAt5Min : Bool := false
deriving DecidableEq

/-- queue.py lines 45-48: the first key of the required list missing from the
payload, if any, scanning in the source's order. -/
def requiredMissing (p : JoinPayload) : Option String :=
  if p.id.isNone then some "id"
  else if p.name.isNone then some "name"
  else if p.guests.isNone then some "guests"
  else if p.notificationMethod.isNone then some "notificationMethod"
  else if p.contact.isNone then some "contact"
  else if p.hall.isNone then some "hall"
  else if p.segment.isNone then some "segment"
  else if p.queueDate.isNone then some "queueDate"
  else none

/-- An HTTP response: status code and either an error body or a payload. -/
abbrev Response (β : Type) := Nat × Except String β

/-- queue.py lines 42-76: POST /queue/join.  Validates the required keys,
computes the position from the current group count, builds the row and merges
it (SQLAlchemy merge by primary key: any existing row with the same id is
replaced), returning 201 with the created entry. -/
def join_queue (st : Store) (p : JoinPayload) : Response QueueEntry × Store :=
  match requiredMissing p with
  | some k => ((400, Except.error (k ++ "_required")), st)
  | none =>
      let guests : Int := p.guests.getD 0
      let hall : String := p.hall.getD ""
      let segment : String := p.segment.getD ""
      let queue_date : String := p.queueDate.getD ""
      let position := next_position st queue_date guests hall segment
      let entry : QueueEntry :=
        { id := p.id.getD ""
          name := p.name.getD ""
          guests := guests
          notification_method := p.notificationMethod.getD ""
          contact := p.contact.getD ""
          hall := hall
          segment := segment
          position := position
          estimated_wait_minutes := (position : Int) * 60
          joined_at := st.now
          queue_date := queue_date
          notified_at_5_min := p.notifiedAt5Min }
      ((201, Except.ok entry),
       { entries := st.entries.filter (fun e => e.id ≠ entry.id) ++ [entry], now := st.now + 1 })

/-- queue.py lines 79-96: DELETE /queue/(entry_id).  404 if the id is absent,
otherwise delete the row and resequence its group. -/
def cancel_queue (st : Store) (entry_id : String) : Response Bool × Store :=
  match st.entries.find? (fun e => e.id == entry_id) with
  | none => ((404, Except.error "not_found"), st)
  | some entry =>
      let st1 : Store := { st with entries := st.entries.filter (fun e => e.id ≠ entry_id) }
      ((200, Except.ok true), resequence st1 entry.queue_date entry.guests entry.hall entry.segment)

/-- A JSON value as relevant to the PATCH body fields. -/
inductive JsonVal where
  | bool (b : Bool)
  | num (v : Int)
  | str (s : String)
  | null
deriving DecidableEq

/-- PATCH /queue/(id) body: each key absent (none) or bound to a JSON value. -/
structure PatchPayload where
  notifiedAt5Min : Option JsonVal := none
  estimatedWaitMinutes : Option JsonVal := none
deriving DecidableEq

/-- Python isinstance(x, bool) on data.get(key): only a boolean passes. -/
def asBool : Option JsonVal → Option Bool
  | some (JsonVal.bool b) => some b
  | _ => none

/-- Python isinstance(x, (int, float)) on data.get(key), followed by float():
numbers pass, and booleans pass too (bool is a subclass of int in Python),
float(True) being 1.0 and float(False) 0.0. -/
def asNum : Option JsonVal → Option Int
  | some (JsonVal.num v) => some v
  | some (JsonVal.bool b) => some (if b then 1 else 0)
  | _ => none

/-- queue.py lines 99-112: PATCH /queue/(entry_id).  404 if absent; otherwise
conditionally overwrite notified_at_5_min and estimated_wait_minutes and
return 200 with the updated entry. -/
def update_queue_entry (st : Store) (entry_id : String) (p : PatchPayload) :
    Response QueueEntry × Store :=
  match st.entries.find? (fun e => e.id == entry_id) with
  | none => ((404, Except.error "not_found"), st)
  | some entry =>
      let entry1 := match asBool p.notifiedAt5Min with
        | some b => { entry with notified_at_5_min := b }
        | none => entry
      let entry2 := match asNum p.estimatedWaitMinutes with
        | some v => { entry1 with estimated_wait_minutes := v }
        | none => entry1
      ((200, Except.ok entry2),
       { st with entries := st.entries.map (fun e => if e.id == entry_id then entry2 else e) })

/-- One lexicographic comparison step: strictly below on this key, or equal on
this key and decided by the remaining keys. -/
def lexLe {α : Type} [LinearOrder α] (x y : α) (rest : Prop) : Prop :=
  x < y ∨ (x = y ∧ rest)

/-- queue.py line 38: the order_by relation of GET /queue, namely queue_date
descending, then hall ascending, then segment ascending, then position
ascending.  The descending key compares the arguments swapped. -/
def queueLe (a b : QueueEntry) : Prop :=
  lexLe b.queue_date a.queue_date
    (lexLe a.hall b.hall
      (lexLe a.segment b.segment (a.position ≤ b.position)))

instance {α : Type} [LinearOrder α] (x y : α) (rest : Prop) [Decidable rest] :
    Decidable (lexLe x y rest) := by
  unfold lexLe
  infer_instance

instance : DecidableRel queueLe := fun a b => by
  unfold queueLe
  infer_instance

instance : IsTrans QueueEntry queueLe :=
  ⟨fun a b c hab hbc => by
    have step : ∀ {β : Type} [inst : LinearOrder β] {x y z : β} {r s t : Prop},
        (r → s → t) → lexLe x y r → lexLe y z s → lexLe x z t := by
      intro β inst x y z r s t h h1 h2
      rcases h1 with hxy | ⟨rfl, hr⟩ <;> rcases h2 with hyz | ⟨rfl, hs⟩
      · exact Or.inl (lt_trans hxy hyz)
      · exact Or.inl hxy
      · exact Or.inl hyz
      · exact Or.inr ⟨rfl, h hr hs⟩
    unfold queueLe at hab hbc ⊢
    refine step (fun hbcH habH => ?_) hbc hab
    refine step (fun habS hbcS => ?_) habH hbcH
    refine step (fun habP hbcP => ?_) habS hbcS
    exact Nat.le_trans habP hbcP⟩

instance : IsTotal QueueEntry queueLe :=
  ⟨fun a b => by
    have step : ∀ {β : Type} [inst : LinearOrder β] {x y : β} {r s : Prop},
        (r ∨ s) → (lexLe x y r ∨ lexLe y x s) := by
      intro β inst x y r s h
      rcases lt_trichotomy x y with hxy | rfl | hxy
      · exact Or.inl (Or.inl hxy)
      · rcases h with hr | hs
        · exact Or.inl (Or.inr ⟨rfl, hr⟩)
        · exact Or.inr (Or.inr ⟨rfl, hs⟩)
      · exact Or.inr (Or.inl hxy)
    unfold queueLe
    exact step (step (step (Nat.le_total a.position b.position)))⟩

/-- queue.py lines 32-39: GET /queue.  An absent or empty queueDate parameter
(Python falsiness of None and "") applies no filter; otherwise rows are
filtered by queue_date, then sorted by the order_by relation. -/
def list_queue (st : Store) (date : Option String) : List QueueEntry :=
  let base := match date with
    | some d => if d = "" then st.entries else st.entries.filter (fun e => e.queue_date == d)
    | none => st.entries
  base.insertionSort queueLe

/-- A document-store collection: its name and the list of index specs
(key, unique) created so far. -/
structure Collection where
  name : String
  indexSpecs : List (String × Bool)
deriving DecidableEq

/-- The document store: an association list from collection names to
collections. -/
structure MongoDB where
  colls : List (String × Collection)
deriving DecidableEq

/-- mongo.py get_collection: fetches a collection by name, lazily creating an
empty one. -/
def MongoDB.get_collection (db : MongoDB) (n : String) : Collection :=
  match db.colls.lookup n with
  | some c => c
  | none => { name := n, indexSpecs := [] }

/-- Writing a collection back into the store under its name. -/
def MongoDB.setColl (db : MongoDB) (n : String) (c : Collection) : MongoDB :=
  { colls := (n, c) :: db.colls.filter (fun kv => kv.1 ≠ n) }

/-- pymongo create_index: a no-op when the index already exists. -/
def create_index (c : Collection) (key : String) (uniq : Bool) : Collection :=
  if (key, uniq) ∈ c.indexSpecs then c else { c with indexSpecs := c.indexSpecs ++ [(key, uniq)] }

/-- The try block of each accessor in mongo.py lines 30-101: run the
create_index calls in order; raises names the keys whose creation raises, and
a raise aborts the remaining calls of the block but is swallowed by the
except clause, the collection built so far being kept. -/
def runIndexes (c : Collection) (specs : List (String × Bool)) (raises : String → Bool) :
    Collection :=
  match specs with
  | [] => c
  | (k, u) :: rest => if raises k then c else runIndexes (create_index c k u) rest raises

/-- The shared shape of the six accessors of mongo.py: get the collection,
attempt the index creations (exceptions swallowed), return the collection. -/
def get_coll_with_indexes (nm : String) (specs : List (String × Bool))
    (db : MongoDB) (raises : String → Bool) : Collection × MongoDB :=
  let c := db.get_collection nm
  let c2 := runIndexes c specs raises
  (c2, db.setColl nm c2)

/-- mongo.py lines 30-38. -/
def get_users_collection (db : MongoDB) (raises : String → Bool) : Collection × MongoDB :=
  get_coll_with_indexes "users" [("email", true)] db raises

/-- mongo.py lines 41-50. -/
def get_menu_collection (db : MongoDB) (raises : String → Bool) : Collection × MongoDB :=
  get_coll_with_indexes "menu_items" [("id", true), ("category", false), ("isVeg", false)] db raises

/-- mongo.py lines 53-63. -/
def get_feedback_collection (db : MongoDB) (raises : String → Bool) : Collection × MongoDB :=
  get_coll_with_indexes "feedback"
    [("id", true), ("userId", false), ("orderId", false), ("createdAt", false)] db raises

/-- mongo.py lines 66-75. -/
def get_orders_collection (db : MongoDB) (raises : String → Bool) : Collection × MongoDB :=
  get_coll_with_indexes "orders" [("id", true), ("userId", false), ("date", false)] db raises

/-- mongo.py lines 78-88. -/
def get_reservations_collection (db : MongoDB) (raises : String → Bool) : Collection × MongoDB :=
  get_coll_with_indexes "reservations"
    [("reservationId", true), ("userId", false), ("date", false), ("timeSlot", false)] db raises

/-- mongo.py lines 91-101. -/
def get_waiting_queue_collection (db : MongoDB) (raises : String → Bool) : Collection × MongoDB :=
  get_coll_with_indexes "reservation_waiting_queue"
    [("queueId", true), ("userId", false), ("date", false), ("timeSlot", false)] db raises

/-- Well-formedness of the document store: each collection is filed under its
own name. -/
def MongoDB.WF (db : MongoDB) : Prop :=
  ∀ kv ∈ db.colls, kv.2.name = kv.1

/-- Well-formedness of reachable queue states: ids are pairwise distinct (the
primary key of the QueueEntry table), joined_at timestamps are pairwise
distinct (utcnow assumed strictly increasing), and all timestamps precede the
clock. -/
def Store.WF (st : Store) : Prop :=
  (st.entries.map QueueEntry.id).Nodup ∧
  (st.entries.map QueueEntry.joined_at).Nodup ∧
  ∀ e ∈ st.entries, e.joined_at < st.now

/-- The positional invariant of one group: the positions are exactly
1..N as a multiset, and position order agrees with joined_at order. -/
def GroupInv (l : List QueueEntry) : Prop :=
  List.Perm (l.map QueueEntry.position) (List.range' 1 l.length) ∧
  ∀ a ∈ l, ∀ b ∈ l, a.joined_at < b.joined_at → a.position < b.position

/-- The queue invariant: every (queue_date, guests, hall, segment) group
satisfies the positional invariant. -/
def QueueInv (st : Store) : Prop :=
  ∀ queue_date guests hall segment, GroupInv (groupRows st queue_date guests hall segment)

/-- The estimated-wait invariant: every row's estimated_wait_minutes equals
its position times 60. -/
def EwmInv (st : Store) : Prop :=
  ∀ e ∈ st.entries, e.estimated_wait_minutes = (e.position : Int) * 60

instance (st : Store) : Decidable st.WF := by
  unfold Store.WF
  infer_instance

instance (l : List QueueEntry) : Decidable (GroupInv l) := by
  unfold GroupInv
  infer_instance

instance (st : Store) : Decidable (EwmInv st) := by
  unfold EwmInv
  infer_instance

/-- The three mutating endpoints of the queue module, as one operation type. -/
inductive Op where
  | join (p : JoinPayload)
  | cancel (entry_id : String)
  | patch (entry_id : String) (p : PatchPayload)
deriving DecidableEq

/-- The state transition of one endpoint call. -/
def applyOp (st : Store) : Op → Store
  | Op.join p => (join_queue st p).2
  | Op.cancel entry_id => (cancel_queue st entry_id).2
  | Op.patch entry_id p => (update_queue_entry st entry_id p).2

/-- The state after a sequence of endpoint calls. -/
def applyOps (st : Store) (ops : List Op) : Store :=
  ops.foldl applyOp st

/-- The row built by a successful POST /queue/join (queue.py lines 58-71),
given the extracted payload fields. -/
def mkJoinEntry (st : Store) (i nm : String) (g : Int) (nmeth ct hl sg qd : String)
    (nf : Bool) : QueueEntry :=
  { id := i
    name := nm
    guests := g
    notification_method := nmeth
    contact := ct
    hall := hl
    segment := sg
    position := next_position st qd g hl sg
    estimated_wait_minutes := ((next_position st qd g hl sg : Nat) : Int) * 60
    joined_at := st.now
    queue_date := qd
    notified_at_5_min := nf }

/-- The required-key list of POST /queue/join, in the source's order
(queue.py line 45). -/
def requiredList : List String :=
  ["id", "name", "guests", "notificationMethod", "contact", "hall", "segment", "queueDate"]

/-- Whether the payload carries the named required key. -/
def fieldPresent (p : JoinPayload) : String → Bool
  | "id" => p.id.isSome
  | "name" => p.name.isSome
  | "guests" => p.guests.isSome
  | "notificationMethod" => p.notificationMethod.isSome
  | "contact" => p.contact.isSome
  | "hall" => p.hall.isSome
  | "segment" => p.segment.isSome
  | "queueDate" => p.queueDate.isSome
  | _ => true

/-- A complete join payload used as concrete input, with a choice of id and
name. -/
def samplePayload (i nm : String) : JoinPayload :=
  { id := some i
    name := some nm
    guests := some 2
    notificationMethod := some "sms"
    contact := some "123"
    hall := some "main"
    segment := some "A"
    queueDate := some "2024-01-01"
    notifiedAt5Min := false }

/-- The empty store at clock 0. -/
def emptyStore : Store := { entries := [], now := 0 }

/-- The store reached from the empty store by one sample join. -/
def wStore : Store := (join_queue emptyStore (samplePayload "a" "first")).2

/-- The single row of wStore. -/
def wEntry : QueueEntry :=
  mkJoinEntry emptyStore "a" "first" 2 "sms" "123" "main" "A" "2024-01-01" false

/-- A sequence of POST /queue/join calls, returning the per-call responses
and the final store. -/
def joinAll (st : Store) : List JoinPayload → List (Response QueueEntry) × Store
  | [] => ([], st)
  | p :: ps =>
      let r := join_queue st p
      let rest := joinAll r.2 ps
      (r.1 :: rest.1, rest.2)

/-- The row as rewritten by PATCH (queue.py lines 106-109): the two
conditional overwrites applied to the found entry. -/
def patchEntry (entry : QueueEntry) (p : PatchPayload) : QueueEntry :=
  let entry1 := match asBool p.notifiedAt5Min with
    | some b => { entry with notified_at_5_min := b }
    | none => entry
  match asNum p.estimatedWaitMinutes with
  | some v => { entry1 with estimated_wait_minutes := v }
  | none => entry1

/-! Helper lemmas about renumbering and resequencing. -/

theorem renumber_length (k : Nat) (l : List QueueEntry) : (renumber k l).length = l.length := by
  induction l generalizing k with
  | nil => rfl
  | cons e rest ih => simp [renumber, ih]

theorem renumber_map_position (k : Nat) (l : List QueueEntry) :
    (renumber k l).map QueueEntry.position = List.range' k l.length := by
  induction l generalizing k with
  | nil => rfl
  | cons e rest ih => simp [renumber, List.range'_succ, ih]

theorem renumber_map_eq {β : Type} (f : QueueEntry → β)
    (hf : ∀ (y : QueueEntry) (i : Nat),
      f { y with position := i, estimated_wait_minutes := (i : Int) * 60 } = f y)
    (k : Nat) (l : List QueueEntry) : (renumber k l).map f = l.map f := by
  induction l generalizing k with
  | nil => rfl
  | cons e rest ih => simp [renumber, hf, ih]

theorem mem_renumber {x : QueueEntry} {k : Nat} {l : List QueueEntry}
    (hx : x ∈ renumber k l) :
    ∃ y ∈ l, ∃ i, k ≤ i ∧
      x = { y with position := i, estimated_wait_minutes := (i : Int) * 60 } := by
  induction l generalizing k with
  | nil => cases hx
  | cons e rest ih =>
      rcases List.mem_cons.mp hx with rfl | hmem
      · exact ⟨e, List.mem_cons_self e rest, k, Nat.le_refl k, rfl⟩
      · rcases ih hmem with ⟨y, hy, i, hki, rfl⟩
        exact ⟨y, List.mem_cons_of_mem e hy, i, Nat.le_of_succ_le hki, rfl⟩

theorem renumber_pos_ge {x : QueueEntry} {k : Nat} {l : List QueueEntry}
    (hx : x ∈ renumber k l) : k ≤ x.position := by
  rcases mem_renumber hx with ⟨y, _, i, hki, rfl⟩
  exact hki

theorem renumber_mono {l : List QueueEntry} {k : Nat}
    (hsort : l.Pairwise (fun a b => a.joined_at < b.joined_at)) :
    ∀ a ∈ renumber k l, ∀ b ∈ renumber k l,
      a.joined_at < b.joined_at → a.position < b.position := by
  induction l generalizing k with
  | nil => intro a ha; cases ha
  | cons e rest ih =>
      rcases List.pairwise_cons.mp hsort with ⟨hhead, hrest⟩
      intro a ha b hb hab
      rcases List.mem_cons.mp ha with rfl | hamem
      · rcases List.mem_cons.mp hb with rfl | hbmem
        · exact absurd hab (lt_irrefl _)
        · exact lt_of_lt_of_le (Nat.lt_succ_self k) (renumber_pos_ge hbmem)
      · rcases List.mem_cons.mp hb with rfl | hbmem
        · rcases mem_renumber hamem with ⟨y, hy, i, _, rfl⟩
          exact absurd (lt_trans (hhead y hy) hab) (lt_irrefl _)
        · exact ih hrest _ hamem _ hbmem hab

theorem groupInv_nil : GroupInv [] := by
  constructor
  · simp
  · intro a ha; cases ha

theorem groupInv_renumber {l : List QueueEntry}
    (hsort : l.Pairwise (fun a b => a.joined_at < b.joined_at)) :
    GroupInv (renumber 1 l) := by
  constructor
  · rw [renumber_map_position, renumber_length]
  · exact renumber_mono hsort

theorem groupInv_of_map_eq {l l' : List QueueEntry}
    (h : l'.map (fun e => (e.position, e.joined_at)) = l.map (fun e => (e.position, e.joined_at)))
    (hInv : GroupInv l) : GroupInv l' := by
  have hlen : l'.length = l.length := by
    have := congrArg List.length h
    simpa using this
  have hpos : l'.map QueueEntry.position = l.map QueueEntry.position := by
    have := congrArg (List.map Prod.fst) h
    simpa [List.map_map, Function.comp] using this
  constructor
  · rw [hpos, hlen]; exact hInv.1
  · intro a ha b hb hab
    have hamem : (a.position, a.joined_at) ∈ l.map (fun e => (e.position, e.joined_at)) := by
      rw [← h]; exact List.mem_map_of_mem _ ha
    have hbmem : (b.position, b.joined_at) ∈ l.map (fun e => (e.position, e.joined_at)) := by
      rw [← h]; exact List.mem_map_of_mem _ hb
    rcases List.mem_map.mp hamem with ⟨a0, ha0, ha0eq⟩
    rcases List.mem_map.mp hbmem with ⟨b0, hb0, hb0eq⟩
    have ha1 : a0.position = a.position := congrArg Prod.fst ha0eq
    have ha2 : a0.joined_at = a.joined_at := congrArg Prod.snd ha0eq
    have hb1 : b0.position = b.position := congrArg Prod.fst hb0eq
    have hb2 : b0.joined_at = b.joined_at := congrArg Prod.snd hb0eq
    rw [← ha1, ← hb1]
    exact hInv.2 a0 ha0 b0 hb0 (by rw [ha2, hb2]; exact hab)

/-- Membership of a row in its own group. -/
theorem inGroup_self (e : QueueEntry) :
    inGroup e.queue_date e.guests e.hall e.segment e = true := by
  simp [inGroup]

theorem inGroup_iff {queue_date : String} {guests : Int} {hall segment : String}
    {e : QueueEntry} :
    inGroup queue_date guests hall segment e = true ↔
      e.queue_date = queue_date ∧ e.guests = guests ∧ e.hall = hall ∧ e.segment = segment := by
  simp [inGroup, and_assoc]

theorem inGroup_update (queue_date : String) (guests : Int) (hall segment : String)
    (y : QueueEntry) (i : Nat) (v : Int) :
    inGroup queue_date guests hall segment
      { y with position := i, estimated_wait_minutes := v } =
    inGroup queue_date guests hall segment y := rfl

/-- After _resequence, the target group's rows are exactly the renumbered
sort of its old rows. -/
theorem resequence_group_self (st : Store) (queue_date : String) (guests : Int)
    (hall segment : String) :
    groupRows (resequence st queue_date guests hall segment) queue_date guests hall segment =
      renumber 1 ((groupRows st queue_date guests hall segment).insertionSort joinedLe) := by
  unfold resequence groupRows
  rw [List.filter_append, List.filter_filter]
  have h1 : st.entries.filter
      (fun a => inGroup queue_date guests hall segment a &&
        !inGroup queue_date guests hall segment a) = [] := by
    rw [List.filter_eq_nil_iff]
    intro a _
    cases inGroup queue_date guests hall segment a <;> simp
  have h2 : (renumber 1 ((st.entries.filter (inGroup queue_date guests hall segment)).insertionSort
      joinedLe)).filter (inGroup queue_date guests hall segment) =
      renumber 1 ((st.entries.filter (inGroup queue_date guests hall segment)).insertionSort
        joinedLe) := by
    rw [List.filter_eq_self]
    intro x hx
    rcases mem_renumber hx with ⟨y, hy, i, _, rfl⟩
    rw [inGroup_update]
    have hy' : y ∈ st.entries.filter (inGroup queue_date guests hall segment) :=
      (List.mem_insertionSort joinedLe).mp hy
    exact (List.mem_filter.mp hy').2
  rw [h1, h2, List.nil_append]

/-- _resequence leaves every other group untouched. -/
theorem resequence_group_other (st : Store) (queue_date : String) (guests : Int)
    (hall segment : String) (qd' : String) (g' : Int) (h' s' : String)
    (hne : ¬(qd' = queue_date ∧ g' = guests ∧ h' = hall ∧ s' = segment)) :
    groupRows (resequence st queue_date guests hall segment) qd' g' h' s' =
      groupRows st qd' g' h' s' := by
  unfold resequence groupRows
  rw [List.filter_append, List.filter_filter]
  have h2 : (renumber 1 ((st.entries.filter (inGroup queue_date guests hall segment)).insertionSort
      joinedLe)).filter (inGroup qd' g' h' s') = [] := by
    rw [List.filter_eq_nil_iff]
    intro x hx
    rcases mem_renumber hx with ⟨y, hy, i, _, rfl⟩
    rw [inGroup_update]
    have hy' : y ∈ st.entries.filter (inGroup queue_date guests hall segment) :=
      (List.mem_insertionSort joinedLe).mp hy
    have hK := inGroup_iff.mp (List.mem_filter.mp hy').2
    intro hcon
    have hK' := inGroup_iff.mp hcon
    exact hne ⟨hK'.1 ▸ hK.1, hK'.2.1 ▸ hK.2.1, hK'.2.2.1 ▸ hK.2.2.1, hK'.2.2.2 ▸ hK.2.2.2⟩
  have h1 : st.entries.filter
      (fun a => inGroup qd' g' h' s' a && !inGroup queue_date guests hall segment a) =
      st.entries.filter (inGroup qd' g' h' s') := by
    apply List.filter_congr
    intro e _
    by_cases hK' : inGroup qd' g' h' s' e = true
    · have hK : inGroup queue_date guests hall segment e = false := by
        rcases inGroup_iff.mp hK' with ⟨e1, e2, e3, e4⟩
        cases hKb : inGroup queue_date guests hall segment e
        · rfl
        · rcases inGroup_iff.mp hKb with ⟨f1, f2, f3, f4⟩
          exact absurd ⟨e1 ▸ f1, e2 ▸ f2, e3 ▸ f3, e4 ▸ f4⟩ hne
      simp [hK', hK]
    · simp [Bool.eq_false_iff.mpr hK']
  rw [h1, h2, List.append_nil]

/-- The rows of a resequenced store are, up to position and estimated wait, a
permutation of the old rows. -/
theorem resequence_map_perm {β : Type} (f : QueueEntry → β)
    (hf : ∀ (y : QueueEntry) (i : Nat),
      f { y with position := i, estimated_wait_minutes := (i : Int) * 60 } = f y)
    (st : Store) (queue_date : String) (guests : Int) (hall segment : String) :
    List.Perm ((resequence st queue_date guests hall segment).entries.map f)
      (st.entries.map f) := by
  unfold resequence
  rw [List.map_append, renumber_map_eq f hf]
  have p1 : List.Perm
      (((st.entries.filter (inGroup queue_date guests hall segment)).insertionSort
        joinedLe).map f)
      ((st.entries.filter (inGroup queue_date guests hall segment)).map f) :=
    (List.perm_insertionSort joinedLe _).map f
  have p2 := List.Perm.append_left
    ((st.entries.filter (fun e => !inGroup queue_date guests hall segment e)).map f) p1
  have p3 : List.Perm
      ((st.entries.filter (fun e => !inGroup queue_date guests hall segment e)).map f ++
        (st.entries.filter (inGroup queue_date guests hall segment)).map f)
      ((st.entries.filter (inGroup queue_date guests hall segment)).map f ++
        (st.entries.filter (fun e => !inGroup queue_date guests hall segment e)).map f) :=
    List.perm_append_comm
  have p5 : List.Perm
      (((st.entries.filter (inGroup queue_date guests hall segment)) ++
        (st.entries.filter (fun e => !inGroup queue_date guests hall segment e))).map f)
      (st.entries.map f) :=
    (List.filter_append_perm (inGroup queue_date guests hall segment) st.entries).map f
  rw [List.map_append] at p5
  exact (p2.trans p3).trans p5

/-- Sorting a list of rows with pairwise-distinct timestamps by joined_at
yields a strictly increasing timestamp sequence. -/
theorem sorted_rows_pairwise {l : List QueueEntry}
    (hnd : (l.map QueueEntry.joined_at).Nodup) :
    (l.insertionSort joinedLe).Pairwise (fun a b => a.joined_at < b.joined_at) := by
  have hsorted : (l.insertionSort joinedLe).Pairwise joinedLe :=
    List.sorted_insertionSort joinedLe l
  have hnd' : ((l.insertionSort joinedLe).map QueueEntry.joined_at).Nodup :=
    ((List.perm_insertionSort joinedLe l).map QueueEntry.joined_at).nodup_iff.mpr hnd
  have hne : (l.insertionSort joinedLe).Pairwise
      (fun a b => a.joined_at ≠ b.joined_at) :=
    List.pairwise_map.mp hnd'
  exact (hsorted.and hne).imp (fun h => lt_of_le_of_ne h.1 h.2)

theorem filter_ne_id_eq_self {l : List QueueEntry} {i : String}
    (h : ∀ x ∈ l, x.id ≠ i) : l.filter (fun x => x.id ≠ i) = l := by
  apply List.filter_eq_self.mpr
  intro x hx
  simp [h x hx]

theorem length_filter_ne_id {l : List QueueEntry} {e : QueueEntry}
    (he : e ∈ l) (hnd : (l.map QueueEntry.id).Nodup) :
    (l.filter (fun x => x.id ≠ e.id)).length + 1 = l.length := by
  induction l with
  | nil => cases he
  | cons b t ih =>
      simp only [List.map_cons, List.nodup_cons] at hnd
      rcases List.mem_cons.mp he with rfl | ht
      · have hfilter : t.filter (fun x => x.id ≠ e.id) = t := by
          apply filter_ne_id_eq_self
          intro x hx heq
          exact hnd.1 (heq ▸ List.mem_map_of_mem QueueEntry.id hx)
        simp only [List.filter_cons]
        simp [hfilter]
        intro a ha heq
        exact hnd.1 (heq ▸ List.mem_map_of_mem QueueEntry.id ha)
      · have hbe : b.id ≠ e.id := by
          intro heq
          exact hnd.1 (heq ▸ List.mem_map_of_mem QueueEntry.id ht)
        have hdec : (decide (b.id ≠ e.id)) = true := by simp [hbe]
        simp only [List.filter_cons, hdec, if_pos, List.length_cons]
        rw [← ih ht hnd.2]

theorem find?_id_unique {l : List QueueEntry} (hnd : (l.map QueueEntry.id).Nodup)
    {e : QueueEntry} (he : e ∈ l) : l.find? (fun x => x.id == e.id) = some e := by
  cases hf : l.find? (fun x => x.id == e.id) with
  | none =>
      exfalso
      have := List.find?_eq_none.mp hf e he
      simp at this
  | some x =>
      have hx : x ∈ l := List.mem_of_find?_eq_some hf
      have hpx := List.find?_some hf
      have hid : x.id = e.id := by simpa using hpx
      exact congrArg some (List.inj_on_of_nodup_map hnd hx he hid)

theorem cancel_absent {st : Store} {i : String} (h : ∀ e ∈ st.entries, e.id ≠ i) :
    cancel_queue st i = ((404, Except.error "not_found"), st) := by
  unfold cancel_queue
  have hnone : st.entries.find? (fun e => e.id == i) = none :=
    List.find?_eq_none.mpr (fun x hx => by simp [h x hx])
  rw [hnone]

theorem cancel_found {st : Store} {e : QueueEntry} (hnd : (st.entries.map QueueEntry.id).Nodup)
    (he : e ∈ st.entries) :
    cancel_queue st e.id =
      ((200, Except.ok true),
       resequence { st with entries := st.entries.filter (fun x => x.id ≠ e.id) }
         e.queue_date e.guests e.hall e.segment) := by
  unfold cancel_queue
  rw [find?_id_unique hnd he]

theorem WF_filter {st : Store} (hWF : st.WF) (p : QueueEntry → Bool) :
    Store.WF { st with entries := st.entries.filter p } := by
  have hsub : List.Sublist (st.entries.filter p) st.entries := List.filter_sublist st.entries
  refine ⟨?_, ?_, ?_⟩
  · exact (hsub.map QueueEntry.id).nodup hWF.1
  · exact (hsub.map QueueEntry.joined_at).nodup hWF.2.1
  · intro x hx
    exact hWF.2.2 x (List.mem_of_mem_filter hx)

theorem resequence_WF {st : Store} (hWF : st.WF) (queue_date : String) (guests : Int)
    (hall segment : String) : (resequence st queue_date guests hall segment).WF := by
  have hid := resequence_map_perm QueueEntry.id (fun _ _ => rfl) st queue_date guests hall segment
  have hj := resequence_map_perm QueueEntry.joined_at (fun _ _ => rfl)
    st queue_date guests hall segment
  refine ⟨hid.nodup_iff.mpr hWF.1, hj.nodup_iff.mpr hWF.2.1, ?_⟩
  intro x hx
  have hmem : x.joined_at ∈
      (resequence st queue_date guests hall segment).entries.map QueueEntry.joined_at :=
    List.mem_map_of_mem QueueEntry.joined_at hx
  rw [hj.mem_iff] at hmem
  rcases List.mem_map.mp hmem with ⟨y, hy, heq⟩
  exact heq ▸ hWF.2.2 y hy

theorem groupRows_filter_comm (st : Store) (p : QueueEntry → Bool) (queue_date : String)
    (guests : Int) (hall segment : String) :
    groupRows { st with entries := st.entries.filter p } queue_date guests hall segment =
      (groupRows st queue_date guests hall segment).filter p := by
  unfold groupRows
  rw [List.filter_filter, List.filter_filter]
  apply List.filter_congr
  intro x _
  rw [Bool.and_comm]

theorem groupRows_filter_ne_id {st : Store} {e : QueueEntry}
    (hnd : (st.entries.map QueueEntry.id).Nodup) (he : e ∈ st.entries)
    (qd' : String) (g' : Int) (h' s' : String)
    (hne : ¬(qd' = e.queue_date ∧ g' = e.guests ∧ h' = e.hall ∧ s' = e.segment)) :
    groupRows { st with entries := st.entries.filter (fun x => x.id ≠ e.id) } qd' g' h' s' =
      groupRows st qd' g' h' s' := by
  unfold groupRows
  rw [List.filter_filter]
  apply List.filter_congr
  intro x hx
  by_cases hK : inGroup qd' g' h' s' x = true
  · have hxid : x.id ≠ e.id := by
      intro heq
      have hxe : x = e := List.inj_on_of_nodup_map hnd hx he heq
      rcases inGroup_iff.mp hK with ⟨k1, k2, k3, k4⟩
      rw [hxe] at k1 k2 k3 k4
      exact hne ⟨k1.symm, k2.symm, k3.symm, k4.symm⟩
    simp [hK, hxid]
  · simp [Bool.eq_false_iff.mpr hK]

/-- Joined-at timestamps of a group are pairwise distinct in a well-formed
store. -/
theorem group_joined_nodup {st : Store} (hWF : st.WF) (queue_date : String) (guests : Int)
    (hall segment : String) :
    ((groupRows st queue_date guests hall segment).map QueueEntry.joined_at).Nodup :=
  ((List.filter_sublist st.entries).map QueueEntry.joined_at).nodup hWF.2.1

/-- DELETE preserves well-formedness and the positional invariant. -/
theorem cancel_preserves {st : Store} (hWF : st.WF) (hInv : QueueInv st) (i : String) :
    ((cancel_queue st i).2).WF ∧ QueueInv ((cancel_queue st i).2) := by
  cases hf : st.entries.find? (fun e => e.id == i) with
  | none =>
      have hcancel : (cancel_queue st i).2 = st := by
        unfold cancel_queue
        rw [hf]
      rw [hcancel]
      exact ⟨hWF, hInv⟩
  | some entry =>
      have hmem : entry ∈ st.entries := List.mem_of_find?_eq_some hf
      have hid : entry.id = i := by
        have := List.find?_some hf
        simpa using this
      subst hid
      have hcancel : (cancel_queue st entry.id).2 =
          resequence { st with entries := st.entries.filter (fun x => x.id ≠ entry.id) }
            entry.queue_date entry.guests entry.hall entry.segment := by
        unfold cancel_queue
        rw [hf]
      rw [hcancel]
      have hWF1 : Store.WF { st with entries := st.entries.filter (fun x => x.id ≠ entry.id) } :=
        WF_filter hWF _
      refine ⟨resequence_WF hWF1 _ _ _ _, ?_⟩
      intro qd g h s
      by_cases hkey : qd = entry.queue_date ∧ g = entry.guests ∧ h = entry.hall ∧ s = entry.segment
      · rcases hkey with ⟨rfl, rfl, rfl, rfl⟩
        rw [resequence_group_self]
        exact groupInv_renumber (sorted_rows_pairwise (group_joined_nodup hWF1 _ _ _ _))
      · rw [resequence_group_other _ _ _ _ _ _ _ _ _ hkey,
          groupRows_filter_ne_id hWF.1 hmem _ _ _ _ hkey]
        exact hInv qd g h s

theorem requiredMissing_none {p : JoinPayload} (hreq : requiredMissing p = none) :
    ∃ i nm g nmeth ct hl sg qd, p.id = some i ∧ p.name = some nm ∧ p.guests = some g ∧
      p.notificationMethod = some nmeth ∧ p.contact = some ct ∧ p.hall = some hl ∧
      p.segment = some sg ∧ p.queueDate = some qd := by
  unfold requiredMissing at hreq
  split_ifs at hreq with h1 h2 h3 h4 h5 h6 h7 h8
  rw [Option.isNone_iff_eq_none] at h1 h2 h3 h4 h5 h6 h7 h8
  rcases Option.ne_none_iff_exists'.mp h1 with ⟨i, hi⟩
  rcases Option.ne_none_iff_exists'.mp h2 with ⟨nm, hnm⟩
  rcases Option.ne_none_iff_exists'.mp h3 with ⟨g, hg⟩
  rcases Option.ne_none_iff_exists'.mp h4 with ⟨nmeth, hnmeth⟩
  rcases Option.ne_none_iff_exists'.mp h5 with ⟨ct, hct⟩
  rcases Option.ne_none_iff_exists'.mp h6 with ⟨hl, hhl⟩
  rcases Option.ne_none_iff_exists'.mp h7 with ⟨sg, hsg⟩
  rcases Option.ne_none_iff_exists'.mp h8 with ⟨qd, hqd⟩
  exact ⟨i, nm, g, nmeth, ct, hl, sg, qd, hi, hnm, hg, hnmeth, hct, hhl, hsg, hqd⟩

theorem join_success {p : JoinPayload} {i nm : String} {g : Int} {nmeth ct hl sg qd : String}
    (hid : p.id = some i) (hname : p.name = some nm) (hg : p.guests = some g)
    (hnmeth : p.notificationMethod = some nmeth) (hct : p.contact = some ct)
    (hhl : p.hall = some hl) (hsg : p.segment = some sg) (hqd : p.queueDate = some qd)
    (st : Store) :
    join_queue st p =
      ((201, Except.ok (mkJoinEntry st i nm g nmeth ct hl sg qd p.notifiedAt5Min)),
       { entries := st.entries.filter (fun e => e.id ≠ i) ++
           [mkJoinEntry st i nm g nmeth ct hl sg qd p.notifiedAt5Min],
         now := st.now + 1 }) := by
  have hreq : requiredMissing p = none := by
    simp [requiredMissing, hid, hname, hg, hnmeth, hct, hhl, hsg, hqd]
  unfold join_queue
  rw [hreq]
  simp [mkJoinEntry, hid, hname, hg, hnmeth, hct, hhl, hsg, hqd]

theorem mkJoinEntry_inGroup (st : Store) (i nm : String) (g : Int)
    (nmeth ct hl sg qd : String) (nf : Bool) (qd' : String) (g' : Int) (h' s' : String) :
    inGroup qd' g' h' s' (mkJoinEntry st i nm g nmeth ct hl sg qd nf) = true ↔
      qd = qd' ∧ g = g' ∧ hl = h' ∧ sg = s' := by
  simp [mkJoinEntry, inGroup, and_assoc]

/-- POST /queue/join with an id not yet present preserves well-formedness
and the positional invariant. -/
theorem join_preserves {st : Store} (hWF : st.WF) (hInv : QueueInv st) (p : JoinPayload)
    (hfresh : ∀ pid, p.id = some pid → ∀ e ∈ st.entries, e.id ≠ pid) :
    ((join_queue st p).2).WF ∧ QueueInv ((join_queue st p).2) := by
  cases hreq : requiredMissing p with
  | some k =>
      have hun : (join_queue st p).2 = st := by
        unfold join_queue
        rw [hreq]
      rw [hun]
      exact ⟨hWF, hInv⟩
  | none =>
      rcases requiredMissing_none hreq with
        ⟨i, nm, g, nmeth, ct, hl, sg, qd, hi, hnm, hg, hnmeth, hct, hhl, hsg, hqd⟩
      rw [join_success hi hnm hg hnmeth hct hhl hsg hqd st]
      have hfilter : st.entries.filter (fun e => e.id ≠ i) = st.entries :=
        filter_ne_id_eq_self (fun x hx => hfresh i hi x hx)
      set E := mkJoinEntry st i nm g nmeth ct hl sg qd p.notifiedAt5Min with hE
      constructor
      · refine ⟨?_, ?_, ?_⟩
        · rw [hfilter, List.map_append, List.nodup_append]
          refine ⟨hWF.1, by simp, ?_⟩
          intro a ha hb
          simp only [List.map_cons, List.map_nil, List.mem_singleton] at hb
          rcases List.mem_map.mp ha with ⟨x, hx, hxa⟩
          have hEid : E.id = i := rfl
          exact hfresh i hi x hx (by rw [hxa, hb, hEid])
        · rw [hfilter, List.map_append, List.nodup_append]
          refine ⟨hWF.2.1, by simp, ?_⟩
          intro a ha hb
          simp only [List.map_cons, List.map_nil, List.mem_singleton] at hb
          rcases List.mem_map.mp ha with ⟨x, hx, hxa⟩
          have hEj : E.joined_at = st.now := rfl
          have := hWF.2.2 x hx
          rw [hxa, hb, hEj] at this
          exact absurd this (lt_irrefl _)
        · rw [hfilter]
          intro x hx
          rcases List.mem_append.mp hx with hx1 | hx2
          · exact lt_trans (hWF.2.2 x hx1) (Nat.lt_succ_self _)
          · have hxE : x = E := List.mem_singleton.mp hx2
            rw [hxE]
            exact Nat.lt_succ_self _
      · intro qd' g' h' s'
        have hgr : groupRows
            { entries := st.entries.filter (fun e => e.id ≠ i) ++ [E], now := st.now + 1 }
            qd' g' h' s' =
            groupRows st qd' g' h' s' ++ (if inGroup qd' g' h' s' E then [E] else []) := by
          unfold groupRows
          rw [hfilter]
          simp [List.filter_append, List.filter_cons]
        rw [hgr]
        by_cases hKE : inGroup qd' g' h' s' E = true
        · rcases (mkJoinEntry_inGroup st i nm g nmeth ct hl sg qd p.notifiedAt5Min
            qd' g' h' s').mp hKE with ⟨rfl, rfl, rfl, rfl⟩
          rw [if_pos hKE]
          have hEpos : E.position = (groupRows st qd g hl sg).length + 1 := rfl
          constructor
          · rw [List.map_append, List.length_append]
            have hbase := (hInv qd g hl sg).1
            have hconcat : List.range' 1 ((groupRows st qd g hl sg).length + 1) =
                List.range' 1 (groupRows st qd g hl sg).length ++
                  [1 + 1 * (groupRows st qd g hl sg).length] := List.range'_concat 1 _
            simp only [List.map_cons, List.map_nil, List.length_cons, List.length_nil]
            rw [Nat.zero_add, hconcat]
            refine List.Perm.append hbase ?_
            have hnum : 1 + 1 * (groupRows st qd g hl sg).length =
                (groupRows st qd g hl sg).length + 1 := by omega
            rw [hEpos, hnum]
          · intro a ha b hb hab
            rcases List.mem_append.mp ha with ha1 | ha2 <;>
              rcases List.mem_append.mp hb with hb1 | hb2
            · exact (hInv qd g hl sg).2 a ha1 b hb1 hab
            · have hbE : b = E := List.mem_singleton.mp hb2
              have hapos : a.position ∈
                  (groupRows st qd g hl sg).map QueueEntry.position :=
                List.mem_map_of_mem QueueEntry.position ha1
              rw [(hInv qd g hl sg).1.mem_iff] at hapos
              have := (List.mem_range'_1.mp hapos).2
              rw [hbE, hEpos]
              omega
            · have haE : a = E := List.mem_singleton.mp ha2
              have hbmem : b ∈ st.entries := List.mem_of_mem_filter hb1
              have hblt : b.joined_at < st.now := hWF.2.2 b hbmem
              have haj : a.joined_at = st.now := by rw [haE]; rfl
              rw [haj] at hab
              exact absurd (lt_trans hab hblt) (lt_irrefl _)
            · have haE : a = E := List.mem_singleton.mp ha2
              have hbE : b = E := List.mem_singleton.mp hb2
              rw [haE, hbE] at hab
              exact absurd hab (lt_irrefl _)
        · rw [if_neg hKE, List.append_nil]
          exact hInv qd' g' h' s'

theorem update_found {st : Store} {entry : QueueEntry} {i : String} {pp : PatchPayload}
    (hf : st.entries.find? (fun e => e.id == i) = some entry) :
    update_queue_entry st i pp =
      ((200, Except.ok (patchEntry entry pp)),
       { st with entries :=
          st.entries.map (fun e => if e.id == i then patchEntry entry pp else e) }) := by
  unfold update_queue_entry patchEntry
  rw [hf]

theorem update_absent {st : Store} {i : String} {pp : PatchPayload}
    (h : ∀ e ∈ st.entries, e.id ≠ i) :
    update_queue_entry st i pp = ((404, Except.error "not_found"), st) := by
  unfold update_queue_entry
  have hnone : st.entries.find? (fun e => e.id == i) = none :=
    List.find?_eq_none.mpr (fun x hx => by simp [h x hx])
  rw [hnone]

theorem patchEntry_fields (entry : QueueEntry) (pp : PatchPayload) :
    (patchEntry entry pp).id = entry.id ∧
    (patchEntry entry pp).joined_at = entry.joined_at ∧
    (patchEntry entry pp).position = entry.position ∧
    (patchEntry entry pp).queue_date = entry.queue_date ∧
    (patchEntry entry pp).guests = entry.guests ∧
    (patchEntry entry pp).hall = entry.hall ∧
    (patchEntry entry pp).segment = entry.segment ∧
    (patchEntry entry pp).name = entry.name ∧
    (patchEntry entry pp).notification_method = entry.notification_method ∧
    (patchEntry entry pp).contact = entry.contact := by
  unfold patchEntry
  cases asBool pp.notifiedAt5Min <;> cases asNum pp.estimatedWaitMinutes <;> simp

/-- PATCH preserves well-formedness and the positional invariant. -/
theorem patch_preserves {st : Store} (hWF : st.WF) (hInv : QueueInv st) (i : String)
    (pp : PatchPayload) :
    ((update_queue_entry st i pp).2).WF ∧ QueueInv ((update_queue_entry st i pp).2) := by
  cases hf : st.entries.find? (fun e => e.id == i) with
  | none =>
      have hun : (update_queue_entry st i pp).2 = st := by
        unfold update_queue_entry
        rw [hf]
      rw [hun]
      exact ⟨hWF, hInv⟩
  | some entry =>
      have hmem : entry ∈ st.entries := List.mem_of_find?_eq_some hf
      have hid : entry.id = i := by
        have := List.find?_some hf
        simpa using this
      subst hid
      rw [update_found hf]
      obtain ⟨f1, f2, f3, f4, f5, f6, f7, f8, f9, f10⟩ := patchEntry_fields entry pp
      have hsub : ∀ x ∈ st.entries,
          (if x.id == entry.id then patchEntry entry pp else x) = x ∨ x = entry := by
        intro x hx
        by_cases hxi : (x.id == entry.id) = true
        · right
          exact List.inj_on_of_nodup_map hWF.1 hx hmem (by simpa using hxi)
        · left
          simp [hxi]
      have hptid : ∀ x ∈ st.entries,
          (if x.id == entry.id then patchEntry entry pp else x).id = x.id := by
        intro x hx
        rcases hsub x hx with hx1 | rfl
        · rw [hx1]
        · simp [f1]
      have hptj : ∀ x ∈ st.entries,
          (if x.id == entry.id then patchEntry entry pp else x).joined_at = x.joined_at := by
        intro x hx
        rcases hsub x hx with hx1 | rfl
        · rw [hx1]
        · simp [f2]
      have hptpj : ∀ x ∈ st.entries,
          ((if x.id == entry.id then patchEntry entry pp else x).position,
           (if x.id == entry.id then patchEntry entry pp else x).joined_at) =
            (x.position, x.joined_at) := by
        intro x hx
        rcases hsub x hx with hx1 | rfl
        · rw [hx1]
        · simp [f2, f3]
      have hptK : ∀ qd g hl sg, ∀ x ∈ st.entries,
          inGroup qd g hl sg (if x.id == entry.id then patchEntry entry pp else x) =
            inGroup qd g hl sg x := by
        intro qd g hl sg x hx
        rcases hsub x hx with hx1 | rfl
        · rw [hx1]
        · simp [inGroup, f4, f5, f6, f7]
      constructor
      · refine ⟨?_, ?_, ?_⟩
        · have hmapid : st.entries.map (QueueEntry.id ∘ fun e =>
              if e.id == entry.id then patchEntry entry pp else e) =
              st.entries.map QueueEntry.id :=
            List.map_congr_left (fun a ha => hptid a ha)
          rw [List.map_map, hmapid]
          exact hWF.1
        · have hmapj : st.entries.map (QueueEntry.joined_at ∘ fun e =>
              if e.id == entry.id then patchEntry entry pp else e) =
              st.entries.map QueueEntry.joined_at :=
            List.map_congr_left (fun a ha => hptj a ha)
          rw [List.map_map, hmapj]
          exact hWF.2.1
        · intro x hx
          rcases List.mem_map.mp hx with ⟨y, hy, hyx⟩
          have : x.joined_at = y.joined_at := by rw [← hyx]; exact hptj y hy
          rw [this]
          exact hWF.2.2 y hy
      · intro qd g hl sg
        have hgr : groupRows
            { st with entries :=
              st.entries.map (fun e => if e.id == entry.id then patchEntry entry pp else e) }
            qd g hl sg =
            (groupRows st qd g hl sg).map
              (fun e => if e.id == entry.id then patchEntry entry pp else e) := by
          unfold groupRows
          rw [List.filter_map]
          congr 1
          apply List.filter_congr
          intro x hx
          exact hptK qd g hl sg x hx
        rw [hgr]
        apply groupInv_of_map_eq ?_ (hInv qd g hl sg)
        rw [List.map_map]
        apply List.map_congr_left
        intro x hx
        exact hptpj x (List.mem_of_mem_filter hx)

theorem ewm_join {st : Store} (hE : EwmInv st) (p : JoinPayload) :
    EwmInv ((join_queue st p).2) := by
  cases hreq : requiredMissing p with
  | some k =>
      have hun : (join_queue st p).2 = st := by
        unfold join_queue
        rw [hreq]
      rw [hun]
      exact hE
  | none =>
      rcases requiredMissing_none hreq with
        ⟨i, nm, g, nmeth, ct, hl, sg, qd, hi, hnm, hg, hnmeth, hct, hhl, hsg, hqd⟩
      rw [join_success hi hnm hg hnmeth hct hhl hsg hqd st]
      intro x hx
      rcases List.mem_append.mp hx with hx1 | hx2
      · exact hE x (List.mem_of_mem_filter hx1)
      · rw [List.mem_singleton.mp hx2]
        rfl

theorem ewm_cancel {st : Store} (hE : EwmInv st) (i : String) :
    EwmInv ((cancel_queue st i).2) := by
  cases hf : st.entries.find? (fun e => e.id == i) with
  | none =>
      have hun : (cancel_queue st i).2 = st := by
        unfold cancel_queue
        rw [hf]
      rw [hun]
      exact hE
  | some entry =>
      have hun : (cancel_queue st i).2 =
          resequence { st with entries := st.entries.filter (fun e => e.id ≠ i) }
            entry.queue_date entry.guests entry.hall entry.segment := by
        unfold cancel_queue
        rw [hf]
      rw [hun]
      intro x hx
      unfold resequence at hx
      rcases List.mem_append.mp hx with hx1 | hx2
      · exact hE x (List.mem_of_mem_filter (List.mem_of_mem_filter hx1))
      · rcases mem_renumber hx2 with ⟨y, _, j, _, rfl⟩
        rfl

theorem ewm_patch {st : Store} (hE : EwmInv st) (i : String) (pp : PatchPayload)
    (hnum : asNum pp.estimatedWaitMinutes = none) :
    EwmInv ((update_queue_entry st i pp).2) := by
  cases hf : st.entries.find? (fun e => e.id == i) with
  | none =>
      have hun : (update_queue_entry st i pp).2 = st := by
        unfold update_queue_entry
        rw [hf]
      rw [hun]
      exact hE
  | some entry =>
      rw [update_found hf]
      intro x hx
      rcases List.mem_map.mp hx with ⟨y, hy, hyx⟩
      by_cases hyi : (y.id == i) = true
      · rw [← hyx]
        simp only [hyi, if_pos]
        have hentry : entry ∈ st.entries := List.mem_of_find?_eq_some hf
        have hpe : patchEntry entry pp =
            (match asBool pp.notifiedAt5Min with
              | some b => { entry with notified_at_5_min := b }
              | none => entry) := by
          unfold patchEntry
          rw [hnum]
        rw [hpe]
        cases asBool pp.notifiedAt5Min <;> simpa using hE entry hentry
      · rw [← hyx]
        simp only [hyi]
        simpa using hE y hy

/-- The estimated-wait invariant is preserved by any sequence of joins,
cancellations, and patches that never carry a numeric estimatedWaitMinutes
override. -/
theorem ewm_ops {st : Store} (hE : EwmInv st) (ops : List Op)
    (hops : ∀ i pp, Op.patch i pp ∈ ops → asNum pp.estimatedWaitMinutes = none) :
    EwmInv (applyOps st ops) := by
  induction ops generalizing st with
  | nil => exact hE
  | cons op rest ih =>
      have hstep : EwmInv (applyOp st op) := by
        cases op with
        | join p => exact ewm_join hE p
        | cancel i => exact ewm_cancel hE i
        | patch i pp =>
            exact ewm_patch hE i pp (hops i pp (List.mem_cons_self _ _))
      exact ih hstep (fun i pp hmem => hops i pp (List.mem_cons_of_mem _ hmem))

/-- Joining a batch of payloads with a common group key, pairwise-distinct
ids, and ids disjoint from the current group: each call returns 201 with the
created entry, the created entries receive consecutive positions starting
from the current group count + 1, and they are appended to the group. -/
theorem joinAll_spec (qd : String) (g : Int) (hl sg : String) :
    ∀ (ps : List JoinPayload) (st : Store),
    (∀ p ∈ ps, requiredMissing p = none) →
    (∀ p ∈ ps, p.queueDate = some qd ∧ p.guests = some g ∧
      p.hall = some hl ∧ p.segment = some sg) →
    (ps.map (fun p => p.id)).Nodup →
    (∀ e ∈ groupRows st qd g hl sg, ∀ p ∈ ps, p.id ≠ some e.id) →
    ∃ es : List QueueEntry,
      (joinAll st ps).1 = es.map (fun e => ((201 : Nat), Except.ok e)) ∧
      es.map QueueEntry.position =
        List.range' ((groupRows st qd g hl sg).length + 1) ps.length ∧
      es.map QueueEntry.id = ps.map (fun p => p.id.getD "") ∧
      groupRows ((joinAll st ps).2) qd g hl sg = groupRows st qd g hl sg ++ es := by
  intro ps
  induction ps with
  | nil =>
      intro st _ _ _ _
      exact ⟨[], rfl, rfl, rfl, by simp [joinAll]⟩
  | cons p ps ih =>
      intro st hreq hkey hids hdisj
      rcases requiredMissing_none (hreq p (List.mem_cons_self _ _)) with
        ⟨i, nm, g0, nmeth, ct, hl0, sg0, qd0, hi, hnm, hg0, hnmeth, hct, hhl0, hsg0, hqd0⟩
      obtain ⟨hkq, hkg, hkh, hks⟩ := hkey p (List.mem_cons_self _ _)
      have hjoin := join_success hi hnm hkg hnmeth hct hkh hks hkq st
      set E := mkJoinEntry st i nm g nmeth ct hl sg qd p.notifiedAt5Min with hEdef
      set st' : Store :=
        { entries := st.entries.filter (fun e => e.id ≠ i) ++ [E], now := st.now + 1 }
        with hst'
      have hdisj0 : ∀ e ∈ groupRows st qd g hl sg, e.id ≠ i := by
        intro e he heq
        exact hdisj e he p (List.mem_cons_self _ _) (by rw [hi, heq])
      have hgr : groupRows st' qd g hl sg = groupRows st qd g hl sg ++ [E] := by
        have hstep : groupRows st' qd g hl sg =
            groupRows { entries := st.entries.filter (fun e => e.id ≠ i), now := st.now + 1 }
              qd g hl sg ++ [E] := by
          unfold groupRows
          rw [hst']
          rw [List.filter_append]
          congr 1
          have hEK : inGroup qd g hl sg E = true :=
            (mkJoinEntry_inGroup st i nm g nmeth ct hl sg qd p.notifiedAt5Min
              qd g hl sg).mpr ⟨rfl, rfl, rfl, rfl⟩
          simp [List.filter_cons, hEK]
        rw [hstep]
        have hcomm := groupRows_filter_comm st (fun e => e.id ≠ i) qd g hl sg
        have hself : (groupRows st qd g hl sg).filter (fun e => e.id ≠ i) =
            groupRows st qd g hl sg := filter_ne_id_eq_self hdisj0
        unfold groupRows at hcomm hself ⊢
        rw [hcomm, hself]
      have hids' : (ps.map (fun p => p.id)).Nodup := by
        simp only [List.map_cons, List.nodup_cons] at hids
        exact hids.2
      have hheadid : p.id ∉ ps.map (fun p => p.id) := by
        simp only [List.map_cons, List.nodup_cons] at hids
        exact hids.1
      have hdisj' : ∀ e ∈ groupRows st' qd g hl sg, ∀ p' ∈ ps, p'.id ≠ some e.id := by
        intro e he p' hp' heq
        rw [hgr] at he
        rcases List.mem_append.mp he with he1 | he2
        · exact hdisj e he1 p' (List.mem_cons_of_mem _ hp') heq
        · have heE : e = E := List.mem_singleton.mp he2
          have heid : e.id = i := by rw [heE]; rfl
          apply hheadid
          rw [hi, ← heid, ← heq]
          exact List.mem_map_of_mem (fun p => p.id) hp'
      obtain ⟨es', h1', h2', h3', h4'⟩ := ih st'
        (fun p' hp' => hreq p' (List.mem_cons_of_mem _ hp'))
        (fun p' hp' => hkey p' (List.mem_cons_of_mem _ hp'))
        hids' hdisj'
      have hjoinAll : joinAll st (p :: ps) =
          ((201, Except.ok E) :: (joinAll st' ps).1, (joinAll st' ps).2) := by
        simp only [joinAll, hjoin]
      refine ⟨E :: es', ?_, ?_, ?_, ?_⟩
      · rw [hjoinAll]
        simp only [List.map_cons]
        exact congrArg _ h1'
      · simp only [List.map_cons]
        have hEpos : E.position = (groupRows st qd g hl sg).length + 1 := rfl
        rw [hEpos, h2']
        have hlen' : (groupRows st' qd g hl sg).length =
            (groupRows st qd g hl sg).length + 1 := by
          rw [hgr, List.length_append]
          rfl
        rw [hlen', List.length_cons, List.range'_succ]
      · simp only [List.map_cons]
        have hEid : E.id = i := rfl
        rw [hEid, h3', hi]
        rfl
      · rw [hjoinAll]
        simp only []
        rw [h4', hgr, List.append_assoc]
        rfl

/-! Helper lemmas about the document-store model. -/

theorem create_index_name (c : Collection) (k : String) (u : Bool) :
    (create_index c k u).name = c.name := by
  unfold create_index
  split_ifs <;> rfl

theorem runIndexes_name (specs : List (String × Bool)) (c : Collection)
    (raises : String → Bool) : (runIndexes c specs raises).name = c.name := by
  induction specs generalizing c with
  | nil => rfl
  | cons s rest ih =>
      unfold runIndexes
      obtain ⟨k, u⟩ := s
      split_ifs
      · rfl
      · rw [ih]
        exact create_index_name c k u

theorem create_index_mem_mono {c : Collection} {t : String × Bool} (k : String) (u : Bool)
    (ht : t ∈ c.indexSpecs) : t ∈ (create_index c k u).indexSpecs := by
  unfold create_index
  split_ifs
  · exact ht
  · exact List.mem_append_left _ ht

theorem create_index_mem_self (c : Collection) (k : String) (u : Bool) :
    (k, u) ∈ (create_index c k u).indexSpecs := by
  unfold create_index
  split_ifs with h
  · exact h
  · exact List.mem_append_right _ (List.mem_singleton.mpr rfl)

theorem runIndexes_mem_mono (specs : List (String × Bool)) (c : Collection)
    (raises : String → Bool) {t : String × Bool} (ht : t ∈ c.indexSpecs) :
    t ∈ (runIndexes c specs raises).indexSpecs := by
  induction specs generalizing c with
  | nil => exact ht
  | cons s rest ih =>
      unfold runIndexes
      obtain ⟨k, u⟩ := s
      split_ifs
      · exact ht
      · exact ih _ (create_index_mem_mono k u ht)

theorem runIndexes_all_mem (specs : List (String × Bool)) (c : Collection) :
    ∀ t ∈ specs, t ∈ (runIndexes c specs (fun _ => false)).indexSpecs := by
  induction specs generalizing c with
  | nil => intro t ht; cases ht
  | cons s rest ih =>
      intro t ht
      obtain ⟨k, u⟩ := s
      unfold runIndexes
      simp only [if_neg (Bool.false_ne_true)]
      rcases List.mem_cons.mp ht with rfl | htr
      · exact runIndexes_mem_mono rest _ _ (create_index_mem_self c k u)
      · exact ih _ t htr

theorem runIndexes_of_subset (specs : List (String × Bool)) (c : Collection)
    (raises : String → Bool) (h : ∀ t ∈ specs, t ∈ c.indexSpecs) :
    runIndexes c specs raises = c := by
  induction specs generalizing c with
  | nil => rfl
  | cons s rest ih =>
      obtain ⟨k, u⟩ := s
      unfold runIndexes
      split_ifs
      · rfl
      · have hcreate : create_index c k u = c := by
          unfold create_index
          rw [if_pos (h (k, u) (List.mem_cons_self _ _))]
        rw [hcreate]
        exact ih _ (fun t ht => h t (List.mem_cons_of_mem _ ht))

theorem runIndexes_raise_all (specs : List (String × Bool)) (c : Collection) :
    runIndexes c specs (fun _ => true) = c := by
  cases specs with
  | nil => rfl
  | cons s rest =>
      obtain ⟨k, u⟩ := s
      rfl

theorem setColl_get (db : MongoDB) (n : String) (c : Collection) :
    (db.setColl n c).get_collection n = c := by
  unfold MongoDB.setColl MongoDB.get_collection
  simp [List.lookup]

theorem lookup_mem {l : List (String × Collection)} {n : String} {c : Collection}
    (hl : l.lookup n = some c) : (n, c) ∈ l := by
  induction l with
  | nil => cases hl
  | cons kv rest ih =>
      obtain ⟨k, c'⟩ := kv
      by_cases hk : (n == k) = true
      · have hkn : n = k := by simpa using hk
        have h2 : List.lookup n ((k, c') :: rest) = some c' := by simp [List.lookup, hk]
        rw [h2] at hl
        have hcc : c' = c := Option.some.inj hl
        subst hkn
        rw [← hcc]
        exact List.mem_cons_self _ _
      · have hk' : (n == k) = false := by simpa using hk
        have h2 : List.lookup n ((k, c') :: rest) = rest.lookup n := by
          simp [List.lookup, hk']
        rw [h2] at hl
        exact List.mem_cons_of_mem _ (ih hl)

theorem get_collection_name {db : MongoDB} (hWF : db.WF) (n : String) :
    (db.get_collection n).name = n := by
  unfold MongoDB.get_collection
  cases hl : db.colls.lookup n with
  | none => rfl
  | some c => exact hWF (n, c) (lookup_mem hl)

theorem coll_name (nm : String) (specs : List (String × Bool)) (db : MongoDB)
    (raises : String → Bool) (hWF : db.WF) :
    (get_coll_with_indexes nm specs db raises).1.name = nm := by
  unfold get_coll_with_indexes
  rw [runIndexes_name]
  exact get_collection_name hWF nm

theorem coll_raise_all (nm : String) (specs : List (String × Bool)) (db : MongoDB) :
    (get_coll_with_indexes nm specs db (fun _ => true)).1 = db.get_collection nm := by
  unfold get_coll_with_indexes
  exact runIndexes_raise_all specs _

theorem setColl_setColl (db : MongoDB) (n : String) (c c' : Collection) :
    (db.setColl n c).setColl n c' = db.setColl n c' := by
  unfold MongoDB.setColl
  simp only [MongoDB.mk.injEq, List.cons.injEq, true_and]
  have hcond : (fun kv => decide (kv.1 ≠ n)) ((n, c) : String × Collection) = false := by
    simp
  rw [List.filter_cons]
  simp only [hcond]
  rw [if_neg (by simp), List.filter_filter]
  apply List.filter_congr
  intro x _
  rw [Bool.and_self]

theorem coll_idem (nm : String) (specs : List (String × Bool)) (db : MongoDB) :
    get_coll_with_indexes nm specs
        ((get_coll_with_indexes nm specs db (fun _ => false)).2) (fun _ => false) =
      get_coll_with_indexes nm specs db (fun _ => false) := by
  simp only [get_coll_with_indexes]
  rw [setColl_get, runIndexes_of_subset specs _ _ (runIndexes_all_mem specs _), setColl_setColl]

theorem queueInv_of_empty {st : Store} (h : st.entries = []) : QueueInv st := by
  intro qd g hl sg
  unfold groupRows
  rw [h, List.filter_nil]
  exact groupInv_nil

theorem groupInv_single {e : QueueEntry} (hpos : e.position = 1) : GroupInv [e] := by
  constructor
  · simp only [List.map_cons, List.map_nil, List.length_cons, List.length_nil]
    rw [hpos]
    exact List.Perm.refl _
  · intro a ha b hb hab
    rw [List.mem_singleton.mp ha, List.mem_singleton.mp hb] at hab
    exact absurd hab (lt_irrefl _)

theorem queueInv_single {st : Store} {e : QueueEntry} (hst : st.entries = [e])
    (hpos : e.position = 1) : QueueInv st := by
  intro qd g hl sg
  unfold groupRows
  rw [hst]
  by_cases hK : inGroup qd g hl sg e = true
  · have : [e].filter (inGroup qd g hl sg) = [e] := by
      simp [List.filter_cons, hK]
    rw [this]
    exact groupInv_single hpos
  · have : [e].filter (inGroup qd g hl sg) = [] := by
      simp [List.filter_cons, Bool.eq_false_iff.mpr hK]
    rw [this]
    exact groupInv_nil

/-! Claim theorems. -/

/-- C1 counterexample: from the well-formed single-entry state reached by one
join, a second join carrying the same id (a legal operation: merge replaces
the row) produces a state whose ("2024-01-01", 2, "main", "A") group is one
entry at position 2, so the group positions are no longer the contiguous
sequence 1..N and the invariant is not preserved by every operation. -/
theorem C1_counterexample :
    Store.WF ((join_queue emptyStore (samplePayload "a" "first")).2) ∧
    QueueInv ((join_queue emptyStore (samplePayload "a" "first")).2) ∧
    ¬ QueueInv (applyOp ((join_queue emptyStore (samplePayload "a" "first")).2)
        (Op.join (samplePayload "a" "second"))) := by
  refine ⟨by decide, ?_, ?_⟩
  · exact queueInv_single
      (e := mkJoinEntry emptyStore "a" "first" 2 "sms" "123" "main" "A" "2024-01-01" false)
      (by decide) (by decide)
  · intro h
    have hbad := h "2024-01-01" 2 "main" "A"
    revert hbad
    decide

/-- C1 (amended): in every well-formed state satisfying the group-position
invariant, the invariant (and well-formedness) is preserved by cancel, by
patch, and by any join whose id is not already present in the store; the
unamended claim fails because a join that reuses an existing id replaces the
row via merge and breaks the contiguity of its group's positions. -/
theorem C1_amended_thm (st : Store) (op : Op) (hWF : st.WF) (hInv : QueueInv st)
    (hfresh : ∀ p, op = Op.join p → ∀ pid, p.id = some pid → ∀ e ∈ st.entries, e.id ≠ pid) :
    (applyOp st op).WF ∧ QueueInv (applyOp st op) := by
  cases op with
  | join p =>
      exact join_preserves hWF hInv p (fun pid hpid => hfresh p rfl pid hpid)
  | cancel i => exact cancel_preserves hWF hInv i
  | patch i pp => exact patch_preserves hWF hInv i pp

/-- C1 witness: the amended preservation theorem applied to the empty store
and a cancel operation. -/
theorem C1_amended_witness :
    (emptyStore.WF ∧ QueueInv emptyStore) ∧
    ((applyOp emptyStore (Op.cancel "x")).WF ∧ QueueInv (applyOp emptyStore (Op.cancel "x"))) :=
  ⟨⟨by decide, queueInv_of_empty rfl⟩,
   C1_amended_thm emptyStore (Op.cancel "x") (by decide) (queueInv_of_empty rfl)
     (fun _ hp => Op.noConfusion hp)⟩

/-- C2 counterexample: estimated wait equals position times 60 after the
join, but the PATCH endpoint accepts a numeric estimatedWaitMinutes override
(queue.py line 108), so after the sequence join-then-patch the field no
longer equals position times 60. -/
theorem C2_counterexample :
    EwmInv ((join_queue emptyStore (samplePayload "a" "first")).2) ∧
    ¬ EwmInv (applyOps emptyStore
        [Op.join (samplePayload "a" "first"),
         Op.patch "a" { notifiedAt5Min := none, estimatedWaitMinutes := some (JsonVal.num 0) }]) :=
  ⟨by decide, by decide⟩

/-- C2 (amended): every row's estimatedWaitMinutes equals its position times
60 after any sequence of join, cancel, and patch operations in which no patch
carries a numeric (or boolean, Python bool being an int) estimatedWaitMinutes
value; the unamended claim fails because such a patch overrides the field
without touching the position. -/
theorem C2_amended_thm (st : Store) (hE : EwmInv st) (ops : List Op)
    (hops : ∀ i pp, Op.patch i pp ∈ ops → asNum pp.estimatedWaitMinutes = none) :
    EwmInv (applyOps st ops) :=
  ewm_ops hE ops hops

/-- C2 witness: the amended invariant applied to a join-then-cancel
sequence from the empty store. -/
theorem C2_amended_witness :
    (EwmInv emptyStore ∧
      (∀ i pp, Op.patch i pp ∈ [Op.join (samplePayload "a" "first"), Op.cancel "a"] →
        asNum pp.estimatedWaitMinutes = none)) ∧
    EwmInv (applyOps emptyStore [Op.join (samplePayload "a" "first"), Op.cancel "a"]) := by
  have hops : ∀ i pp, Op.patch i pp ∈ [Op.join (samplePayload "a" "first"), Op.cancel "a"] →
      asNum pp.estimatedWaitMinutes = none := by
    intro i pp h
    rcases List.mem_cons.mp h with h1 | h2
    · exact Op.noConfusion h1
    · rcases List.mem_cons.mp h2 with h3 | h4
      · exact Op.noConfusion h3
      · cases h4
  exact ⟨⟨by decide, hops⟩, C2_amended_thm emptyStore (by decide) _ hops⟩

/-- C3: joining N payloads with pairwise-distinct ids and a common
(queueDate, guests, hall, segment) key into a store whose group for that key
is empty assigns positions 1..N in join order, and every call returns
status 201 with the created entry as its body; the created entries are
exactly the final group, in join order. -/
theorem C3_join_batch (st : Store) (ps : List JoinPayload) (qd : String) (g : Int)
    (hl sg : String)
    (hreq : ∀ p ∈ ps, requiredMissing p = none)
    (hkey : ∀ p ∈ ps, p.queueDate = some qd ∧ p.guests = some g ∧
      p.hall = some hl ∧ p.segment = some sg)
    (hids : (ps.map (fun p => p.id)).Nodup)
    (hempty : groupRows st qd g hl sg = []) :
    ∃ es : List QueueEntry,
      (joinAll st ps).1 = es.map (fun e => ((201 : Nat), Except.ok e)) ∧
      es.map QueueEntry.position = List.range' 1 ps.length ∧
      es.map QueueEntry.id = ps.map (fun p => p.id.getD "") ∧
      groupRows ((joinAll st ps).2) qd g hl sg = es := by
  have hdisj : ∀ e ∈ groupRows st qd g hl sg, ∀ p ∈ ps, p.id ≠ some e.id := by
    rw [hempty]
    intro e he
    cases he
  obtain ⟨es, h1, h2, h3, h4⟩ := joinAll_spec qd g hl sg ps st hreq hkey hids hdisj
  rw [hempty] at h2 h4
  simp only [List.length_nil, Nat.zero_add, List.nil_append] at h2 h4
  exact ⟨es, h1, h2, h3, h4⟩

/-- C3 witness: two sample payloads joined into the empty store. -/
theorem C3_witness :
    ((∀ p ∈ [samplePayload "a" "first", samplePayload "b" "second"],
        requiredMissing p = none) ∧
      (∀ p ∈ [samplePayload "a" "first", samplePayload "b" "second"],
        p.queueDate = some "2024-01-01" ∧ p.guests = some 2 ∧
        p.hall = some "main" ∧ p.segment = some "A") ∧
      (([samplePayload "a" "first", samplePayload "b" "second"].map
        (fun p => p.id)).Nodup) ∧
      groupRows emptyStore "2024-01-01" 2 "main" "A" = []) ∧
    (∃ es : List QueueEntry,
      (joinAll emptyStore [samplePayload "a" "first", samplePayload "b" "second"]).1 =
        es.map (fun e => ((201 : Nat), Except.ok e)) ∧
      es.map QueueEntry.position =
        List.range' 1 [samplePayload "a" "first", samplePayload "b" "second"].length ∧
      es.map QueueEntry.id =
        [samplePayload "a" "first", samplePayload "b" "second"].map
          (fun p => p.id.getD "") ∧
      groupRows ((joinAll emptyStore
          [samplePayload "a" "first", samplePayload "b" "second"]).2)
        "2024-01-01" 2 "main" "A" = es) :=
  ⟨⟨by decide, by decide, by decide, by decide⟩,
   C3_join_batch emptyStore [samplePayload "a" "first", samplePayload "b" "second"]
     "2024-01-01" 2 "main" "A" (by decide) (by decide) (by decide) (by decide)⟩

/-- C4: in a well-formed state satisfying the positional invariant,
cancelling any existing entry returns 200, removes exactly that entry (the
row multiset up to position data loses exactly the cancelled id), shrinks its
group by one, renumbers the surviving group rows to the contiguous sequence
1..N-1 ordered by join time, and leaves every other group unchanged. -/
theorem C4_cancel (st : Store) (e : QueueEntry) (hWF : st.WF) (hInv : QueueInv st)
    (he : e ∈ st.entries) :
    (cancel_queue st e.id).1 = (200, Except.ok true) ∧
    (groupRows ((cancel_queue st e.id).2) e.queue_date e.guests e.hall e.segment).length + 1 =
      (groupRows st e.queue_date e.guests e.hall e.segment).length ∧
    GroupInv (groupRows ((cancel_queue st e.id).2) e.queue_date e.guests e.hall e.segment) ∧
    List.Perm
      ((groupRows ((cancel_queue st e.id).2) e.queue_date e.guests e.hall e.segment).map
        (fun x => (x.id, x.joined_at)))
      (((groupRows st e.queue_date e.guests e.hall e.segment).filter
        (fun x => x.id ≠ e.id)).map (fun x => (x.id, x.joined_at))) ∧
    List.Perm (((cancel_queue st e.id).2).entries.map (fun x => (x.id, x.joined_at)))
      ((st.entries.filter (fun x => x.id ≠ e.id)).map (fun x => (x.id, x.joined_at))) ∧
    (∀ qd' g' h' s', ¬(qd' = e.queue_date ∧ g' = e.guests ∧ h' = e.hall ∧ s' = e.segment) →
      groupRows ((cancel_queue st e.id).2) qd' g' h' s' = groupRows st qd' g' h' s') := by
  rw [cancel_found hWF.1 he]
  have hWF1 : Store.WF { st with entries := st.entries.filter (fun x => x.id ≠ e.id) } :=
    WF_filter hWF _
  have hGr1 : groupRows { st with entries := st.entries.filter (fun x => x.id ≠ e.id) }
      e.queue_date e.guests e.hall e.segment =
      (groupRows st e.queue_date e.guests e.hall e.segment).filter
        (fun x => x.id ≠ e.id) :=
    groupRows_filter_comm st _ _ _ _ _
  have hGr2 := resequence_group_self
    { st with entries := st.entries.filter (fun x => x.id ≠ e.id) }
    e.queue_date e.guests e.hall e.segment
  have hegroup : e ∈ groupRows st e.queue_date e.guests e.hall e.segment :=
    List.mem_filter.mpr ⟨he, inGroup_self e⟩
  have hgnodup : ((groupRows st e.queue_date e.guests e.hall e.segment).map
      QueueEntry.id).Nodup :=
    ((List.filter_sublist st.entries).map QueueEntry.id).nodup hWF.1
  refine ⟨rfl, ?_, ?_, ?_, ?_, ?_⟩
  · rw [hGr2, renumber_length, hGr1]
    have hsortlen := (List.perm_insertionSort joinedLe
      ((groupRows st e.queue_date e.guests e.hall e.segment).filter
        (fun x => x.id ≠ e.id))).length_eq
    rw [hsortlen]
    exact length_filter_ne_id hegroup hgnodup
  · rw [hGr2]
    exact groupInv_renumber (sorted_rows_pairwise (group_joined_nodup hWF1 _ _ _ _))
  · rw [hGr2, renumber_map_eq (fun x => (x.id, x.joined_at)) (fun _ _ => rfl), hGr1]
    exact (List.perm_insertionSort joinedLe _).map (fun x => (x.id, x.joined_at))
  · exact resequence_map_perm (fun x => (x.id, x.joined_at)) (fun _ _ => rfl) _ _ _ _ _
  · intro qd' g' h' s' hne
    rw [resequence_group_other _ _ _ _ _ _ _ _ _ hne,
      groupRows_filter_ne_id hWF.1 he _ _ _ _ hne]

/-- C4 witness: cancelling the single entry of the one-row store. -/
theorem C4_witness :
    (wStore.WF ∧ QueueInv wStore ∧ wEntry ∈ wStore.entries) ∧
    ((cancel_queue wStore wEntry.id).1 = (200, Except.ok true) ∧
    (groupRows ((cancel_queue wStore wEntry.id).2) wEntry.queue_date wEntry.guests
        wEntry.hall wEntry.segment).length + 1 =
      (groupRows wStore wEntry.queue_date wEntry.guests wEntry.hall wEntry.segment).length ∧
    GroupInv (groupRows ((cancel_queue wStore wEntry.id).2) wEntry.queue_date wEntry.guests
      wEntry.hall wEntry.segment) ∧
    List.Perm
      ((groupRows ((cancel_queue wStore wEntry.id).2) wEntry.queue_date wEntry.guests
        wEntry.hall wEntry.segment).map (fun x => (x.id, x.joined_at)))
      (((groupRows wStore wEntry.queue_date wEntry.guests wEntry.hall wEntry.segment).filter
        (fun x => x.id ≠ wEntry.id)).map (fun x => (x.id, x.joined_at))) ∧
    List.Perm (((cancel_queue wStore wEntry.id).2).entries.map (fun x => (x.id, x.joined_at)))
      ((wStore.entries.filter (fun x => x.id ≠ wEntry.id)).map
        (fun x => (x.id, x.joined_at))) ∧
    (∀ qd' g' h' s',
      ¬(qd' = wEntry.queue_date ∧ g' = wEntry.guests ∧ h' = wEntry.hall ∧
        s' = wEntry.segment) →
      groupRows ((cancel_queue wStore wEntry.id).2) qd' g' h' s' =
        groupRows wStore qd' g' h' s')) :=
  ⟨⟨by decide, queueInv_single (e := wEntry) (by decide) (by decide), by decide⟩,
   C4_cancel wStore wEntry (by decide)
     (queueInv_single (e := wEntry) (by decide) (by decide)) (by decide)⟩

/-- C5: a join payload missing at least one required key is answered with
400 and the error code (k)_required for the first missing key k in the
source's key order, and the store is returned unchanged. -/
theorem C5_join_missing (st : Store) (p : JoinPayload)
    (h : p.id = none ∨ p.name = none ∨ p.guests = none ∨ p.notificationMethod = none ∨
      p.contact = none ∨ p.hall = none ∨ p.segment = none ∨ p.queueDate = none) :
    ∃ k, requiredMissing p = some k ∧
      join_queue st p = ((400, Except.error (k ++ "_required")), st) ∧
      k ∈ requiredList ∧ fieldPresent p k = false ∧
      ∀ k' ∈ requiredList.takeWhile (fun x => x ≠ k), fieldPresent p k' = true := by
  by_cases h1 : p.id = none
  · have hreq : requiredMissing p = some "id" := by simp [requiredMissing, h1]
    refine ⟨"id", hreq, by unfold join_queue; rw [hreq], by simp [requiredList],
      by simp [fieldPresent, h1], ?_⟩
    intro k' hk'
    have ht : requiredList.takeWhile (fun x => x ≠ "id") = [] := by decide
    rw [ht] at hk'
    cases hk'
  · obtain ⟨v1, hv1⟩ := Option.ne_none_iff_exists'.mp h1
    by_cases h2 : p.name = none
    · have hreq : requiredMissing p = some "name" := by simp [requiredMissing, hv1, h2]
      refine ⟨"name", hreq, by unfold join_queue; rw [hreq], by simp [requiredList],
        by simp [fieldPresent, h2], ?_⟩
      intro k' hk'
      have ht : requiredList.takeWhile (fun x => x ≠ "name") = ["id"] := by decide
      rw [ht] at hk'
      rw [List.mem_singleton.mp hk']
      simp [fieldPresent, hv1]
    · obtain ⟨v2, hv2⟩ := Option.ne_none_iff_exists'.mp h2
      by_cases h3 : p.guests = none
      · have hreq : requiredMissing p = some "guests" := by
          simp [requiredMissing, hv1, hv2, h3]
        refine ⟨"guests", hreq, by unfold join_queue; rw [hreq], by simp [requiredList],
          by simp [fieldPresent, h3], ?_⟩
        intro k' hk'
        have ht : requiredList.takeWhile (fun x => x ≠ "guests") = ["id", "name"] := by decide
        rw [ht] at hk'
        rcases List.mem_cons.mp hk' with rfl | hk2
        · simp [fieldPresent, hv1]
        · rw [List.mem_singleton.mp hk2]
          simp [fieldPresent, hv2]
      · obtain ⟨v3, hv3⟩ := Option.ne_none_iff_exists'.mp h3
        by_cases h4 : p.notificationMethod = none
        · have hreq : requiredMissing p = some "notificationMethod" := by
            simp [requiredMissing, hv1, hv2, hv3, h4]
          refine ⟨"notificationMethod", hreq, by unfold join_queue; rw [hreq],
            by simp [requiredList], by simp [fieldPresent, h4], ?_⟩
          intro k' hk'
          have ht : requiredList.takeWhile (fun x => x ≠ "notificationMethod") =
              ["id", "name", "guests"] := by decide
          rw [ht] at hk'
          rcases List.mem_cons.mp hk' with rfl | hk2
          · simp [fieldPresent, hv1]
          rcases List.mem_cons.mp hk2 with rfl | hk3
          · simp [fieldPresent, hv2]
          rw [List.mem_singleton.mp hk3]
          simp [fieldPresent, hv3]
        · obtain ⟨v4, hv4⟩ := Option.ne_none_iff_exists'.mp h4
          by_cases h5 : p.contact = none
          · have hreq : requiredMissing p = some "contact" := by
              simp [requiredMissing, hv1, hv2, hv3, hv4, h5]
            refine ⟨"contact", hreq, by unfold join_queue; rw [hreq],
              by simp [requiredList], by simp [fieldPresent, h5], ?_⟩
            intro k' hk'
            have ht : requiredList.takeWhile (fun x => x ≠ "contact") =
                ["id", "name", "guests", "notificationMethod"] := by decide
            rw [ht] at hk'
            rcases List.mem_cons.mp hk' with rfl | hk2
            · simp [fieldPresent, hv1]
            rcases List.mem_cons.mp hk2 with rfl | hk3
            · simp [fieldPresent, hv2]
            rcases List.mem_cons.mp hk3 with rfl | hk4
            · simp [fieldPresent, hv3]
            rw [List.mem_singleton.mp hk4]
            simp [fieldPresent, hv4]
          · obtain ⟨v5, hv5⟩ := Option.ne_none_iff_exists'.mp h5
            by_cases h6 : p.hall = none
            · have hreq : requiredMissing p = some "hall" := by
                simp [requiredMissing, hv1, hv2, hv3, hv4, hv5, h6]
              refine ⟨"hall", hreq, by unfold join_queue; rw [hreq],
                by simp [requiredList], by simp [fieldPresent, h6], ?_⟩
              intro k' hk'
              have ht : requiredList.takeWhile (fun x => x ≠ "hall") =
                  ["id", "name", "guests", "notificationMethod", "contact"] := by decide
              rw [ht] at hk'
              rcases List.mem_cons.mp hk' with rfl | hk2
              · simp [fieldPresent, hv1]
              rcases List.mem_cons.mp hk2 with rfl | hk3
              · simp [fieldPresent, hv2]
              rcases List.mem_cons.mp hk3 with rfl | hk4
              · simp [fieldPresent, hv3]
              rcases List.mem_cons.mp hk4 with rfl | hk5
              · simp [fieldPresent, hv4]
              rw [List.mem_singleton.mp hk5]
              simp [fieldPresent, hv5]
            · obtain ⟨v6, hv6⟩ := Option.ne_none_iff_exists'.mp h6
              by_cases h7 : p.segment = none
              · have hreq : requiredMissing p = some "segment" := by
                  simp [requiredMissing, hv1, hv2, hv3, hv4, hv5, hv6, h7]
                refine ⟨"segment", hreq, by unfold join_queue; rw [hreq],
                  by simp [requiredList], by simp [fieldPresent, h7], ?_⟩
                intro k' hk'
                have ht : requiredList.takeWhile (fun x => x ≠ "segment") =
                    ["id", "name", "guests", "notificationMethod", "contact", "hall"] := by
                  decide
                rw [ht] at hk'
                rcases List.mem_cons.mp hk' with rfl | hk2
                · simp [fieldPresent, hv1]
                rcases List.mem_cons.mp hk2 with rfl | hk3
                · simp [fieldPresent, hv2]
                rcases List.mem_cons.mp hk3 with rfl | hk4
                · simp [fieldPresent, hv3]
                rcases List.mem_cons.mp hk4 with rfl | hk5
                · simp [fieldPresent, hv4]
                rcases List.mem_cons.mp hk5 with rfl | hk6
                · simp [fieldPresent, hv5]
                rw [List.mem_singleton.mp hk6]
                simp [fieldPresent, hv6]
              · obtain ⟨v7, hv7⟩ := Option.ne_none_iff_exists'.mp h7
                by_cases h8 : p.queueDate = none
                · have hreq : requiredMissing p = some "queueDate" := by
                    simp [requiredMissing, hv1, hv2, hv3, hv4, hv5, hv6, hv7, h8]
                  refine ⟨"queueDate", hreq, by unfold join_queue; rw [hreq],
                    by simp [requiredList], by simp [fieldPresent, h8], ?_⟩
                  intro k' hk'
                  have ht : requiredList.takeWhile (fun x => x ≠ "queueDate") =
                      ["id", "name", "guests", "notificationMethod", "contact", "hall",
                        "segment"] := by decide
                  rw [ht] at hk'
                  rcases List.mem_cons.mp hk' with rfl | hk2
                  · simp [fieldPresent, hv1]
                  rcases List.mem_cons.mp hk2 with rfl | hk3
                  · simp [fieldPresent, hv2]
                  rcases List.mem_cons.mp hk3 with rfl | hk4
                  · simp [fieldPresent, hv3]
                  rcases List.mem_cons.mp hk4 with rfl | hk5
                  · simp [fieldPresent, hv4]
                  rcases List.mem_cons.mp hk5 with rfl | hk6
                  · simp [fieldPresent, hv5]
                  rcases List.mem_cons.mp hk6 with rfl | hk7
                  · simp [fieldPresent, hv6]
                  rw [List.mem_singleton.mp hk7]
                  simp [fieldPresent, hv7]
                · rcases h with hc | hc | hc | hc | hc | hc | hc | hc
                  · exact absurd hc h1
                  · exact absurd hc h2
                  · exact absurd hc h3
                  · exact absurd hc h4
                  · exact absurd hc h5
                  · exact absurd hc h6
                  · exact absurd hc h7
                  · exact absurd hc h8

/-- C5 witness: a payload missing only the guests field is rejected with
guests_required and the store is unchanged. -/
theorem C5_witness :
    ({ samplePayload "a" "first" with guests := none } : JoinPayload).guests = none ∧
    (∃ k, requiredMissing { samplePayload "a" "first" with guests := none } = some k ∧
      join_queue emptyStore { samplePayload "a" "first" with guests := none } =
        ((400, Except.error (k ++ "_required")), emptyStore) ∧
      k ∈ requiredList ∧
      fieldPresent { samplePayload "a" "first" with guests := none } k = false ∧
      ∀ k' ∈ requiredList.takeWhile (fun x => x ≠ k),
        fieldPresent { samplePayload "a" "first" with guests := none } k' = true) :=
  ⟨by decide,
   C5_join_missing emptyStore { samplePayload "a" "first" with guests := none }
     (Or.inr (Or.inr (Or.inl (by decide))))⟩

/-- C6: DELETE /queue/(id) and PATCH /queue/(id) answer 404 with the
not_found error body exactly when no row carries the id, and in that case
they leave the store unchanged. -/
theorem C6_not_found (st : Store) (i : String) (pp : PatchPayload) :
    ((cancel_queue st i).1 = ((404 : Nat), Except.error "not_found") ↔
      ∀ e ∈ st.entries, e.id ≠ i) ∧
    ((∀ e ∈ st.entries, e.id ≠ i) → (cancel_queue st i).2 = st) ∧
    ((update_queue_entry st i pp).1 = ((404 : Nat), Except.error "not_found") ↔
      ∀ e ∈ st.entries, e.id ≠ i) ∧
    ((∀ e ∈ st.entries, e.id ≠ i) → (update_queue_entry st i pp).2 = st) := by
  cases hf : st.entries.find? (fun e => e.id == i) with
  | none =>
      have habs : ∀ e ∈ st.entries, e.id ≠ i := by
        intro e he
        have := List.find?_eq_none.mp hf e he
        simpa using this
      have hc : cancel_queue st i = ((404, Except.error "not_found"), st) := by
        unfold cancel_queue
        rw [hf]
      have hu : update_queue_entry st i pp = ((404, Except.error "not_found"), st) := by
        unfold update_queue_entry
        rw [hf]
      rw [hc, hu]
      exact ⟨⟨fun _ => habs, fun _ => rfl⟩, fun _ => rfl, ⟨fun _ => habs, fun _ => rfl⟩,
        fun _ => rfl⟩
  | some entry =>
      have hmem : entry ∈ st.entries := List.mem_of_find?_eq_some hf
      have hid : entry.id = i := by
        have := List.find?_some hf
        simpa using this
      have habs : ¬ (∀ e ∈ st.entries, e.id ≠ i) := fun hall => hall entry hmem hid
      have hc : (cancel_queue st i).1 = (200, Except.ok true) := by
        unfold cancel_queue
        rw [hf]
      have hu : (update_queue_entry st i pp).1 = (200, Except.ok (patchEntry entry pp)) := by
        rw [update_found hf]
      refine ⟨⟨fun h404 => ?_, fun hall => absurd hall habs⟩,
        fun hall => absurd hall habs,
        ⟨fun h404 => ?_, fun hall => absurd hall habs⟩,
        fun hall => absurd hall habs⟩
      · rw [hc] at h404
        injection h404 with hfst _
        exact absurd hfst (by decide)
      · rw [hu] at h404
        injection h404 with hfst _
        exact absurd hfst (by decide)

/-- C6 witness: the unknown id "zzz" against the one-row store: the 404
response and the unchanged store, each implication discharged there. -/
theorem C6_witness :
    (∀ e ∈ wStore.entries, e.id ≠ "zzz") ∧
    (cancel_queue wStore "zzz").1 = ((404 : Nat), Except.error "not_found") ∧
    (cancel_queue wStore "zzz").2 = wStore ∧
    (update_queue_entry wStore "zzz" { }).1 = ((404 : Nat), Except.error "not_found") ∧
    (update_queue_entry wStore "zzz" { }).2 = wStore :=
  ⟨by decide,
   (C6_not_found wStore "zzz" { }).1.mpr (by decide),
   (C6_not_found wStore "zzz" { }).2.1 (by decide),
   (C6_not_found wStore "zzz" { }).2.2.1.mpr (by decide),
   (C6_not_found wStore "zzz" { }).2.2.2 (by decide)⟩

/-- C7: with a non-empty queueDate parameter, GET /queue returns exactly the
rows whose queue_date equals it, sorted by the order_by relation (date desc,
hall asc, segment asc, position asc); without a parameter it returns all rows
in that order. -/
theorem C7_list_queue (st : Store) (d : String) (hd : d ≠ "") :
    (List.Perm (list_queue st (some d)) (st.entries.filter (fun e => e.queue_date == d)) ∧
      List.Sorted queueLe (list_queue st (some d))) ∧
    (List.Perm (list_queue st none) st.entries ∧
      List.Sorted queueLe (list_queue st none)) := by
  have hsome : list_queue st (some d) =
      (st.entries.filter (fun e => e.queue_date == d)).insertionSort queueLe := by
    simp only [list_queue, if_neg hd]
  have hnone : list_queue st none = st.entries.insertionSort queueLe := rfl
  rw [hsome, hnone]
  exact ⟨⟨List.perm_insertionSort queueLe _, List.sorted_insertionSort queueLe _⟩,
    ⟨List.perm_insertionSort queueLe _, List.sorted_insertionSort queueLe _⟩⟩

/-- C7 witness: listing the one-row store with the filter "2024-01-01". -/
theorem C7_witness :
    ("2024-01-01" : String) ≠ "" ∧
    ((List.Perm (list_queue wStore (some "2024-01-01"))
        (wStore.entries.filter (fun e => e.queue_date == "2024-01-01")) ∧
      List.Sorted queueLe (list_queue wStore (some "2024-01-01"))) ∧
    (List.Perm (list_queue wStore none) wStore.entries ∧
      List.Sorted queueLe (list_queue wStore none))) :=
  ⟨by decide, C7_list_queue wStore "2024-01-01" (by decide)⟩

/-- C8: PATCH on an existing entry returns 200 with the updated entry;
notified_at_5_min takes the payload value exactly when that value is a
boolean, estimated_wait_minutes takes the payload value exactly when that
value is an int or float (Python booleans being ints), every other field of
the entry keeps its value, and every other row of the store is untouched. -/
theorem C8_patch_semantics (st : Store) (e : QueueEntry) (pp : PatchPayload)
    (hids : (st.entries.map QueueEntry.id).Nodup) (he : e ∈ st.entries) :
    ∃ e2 : QueueEntry,
      update_queue_entry st e.id pp =
        ((200, Except.ok e2),
         { st with entries := st.entries.map (fun x => if x = e then e2 else x) }) ∧
      e2.notified_at_5_min =
        (match asBool pp.notifiedAt5Min with
          | some b => b
          | none => e.notified_at_5_min) ∧
      e2.estimated_wait_minutes =
        (match asNum pp.estimatedWaitMinutes with
          | some v => v
          | none => e.estimated_wait_minutes) ∧
      e2.id = e.id ∧ e2.name = e.name ∧ e2.guests = e.guests ∧
      e2.notification_method = e.notification_method ∧ e2.contact = e.contact ∧
      e2.hall = e.hall ∧ e2.segment = e.segment ∧ e2.position = e.position ∧
      e2.joined_at = e.joined_at ∧ e2.queue_date = e.queue_date := by
  have hf : st.entries.find? (fun x => x.id == e.id) = some e := find?_id_unique hids he
  obtain ⟨f1, f2, f3, f4, f5, f6, f7, f8, f9, f10⟩ := patchEntry_fields e pp
  refine ⟨patchEntry e pp, ?_, ?_, ?_, f1, f8, f5, f9, f10, f6, f7, f3, f2, f4⟩
  · rw [update_found hf]
    have hmap : st.entries.map (fun x => if x.id == e.id then patchEntry e pp else x) =
        st.entries.map (fun x => if x = e then patchEntry e pp else x) := by
      apply List.map_congr_left
      intro x hx
      by_cases hxe : x = e
      · subst hxe
        simp
      · have hbe : (x.id == e.id) = false := by
          cases hb : (x.id == e.id)
          · rfl
          · exact absurd (List.inj_on_of_nodup_map hids hx he (by simpa using hb)) hxe
        rw [hbe]
        simp [hxe]
    rw [hmap]
  · unfold patchEntry
    cases asBool pp.notifiedAt5Min <;> cases asNum pp.estimatedWaitMinutes <;> simp
  · unfold patchEntry
    cases asBool pp.notifiedAt5Min <;> cases asNum pp.estimatedWaitMinutes <;> simp

/-- C8 witness: patching the one-row store's entry with a boolean
notifiedAt5Min and no estimatedWaitMinutes. -/
theorem C8_witness :
    ((wStore.entries.map QueueEntry.id).Nodup ∧ wEntry ∈ wStore.entries) ∧
    (∃ e2 : QueueEntry,
      update_queue_entry wStore wEntry.id
          { notifiedAt5Min := some (JsonVal.bool true), estimatedWaitMinutes := none } =
        ((200, Except.ok e2),
         { wStore with entries := wStore.entries.map (fun x => if x = wEntry then e2 else x) }) ∧
      e2.notified_at_5_min =
        (match asBool (some (JsonVal.bool true)) with
          | some b => b
          | none => wEntry.notified_at_5_min) ∧
      e2.estimated_wait_minutes =
        (match asNum (none : Option JsonVal) with
          | some v => v
          | none => wEntry.estimated_wait_minutes) ∧
      e2.id = wEntry.id ∧ e2.name = wEntry.name ∧ e2.guests = wEntry.guests ∧
      e2.notification_method = wEntry.notification_method ∧ e2.contact = wEntry.contact ∧
      e2.hall = wEntry.hall ∧ e2.segment = wEntry.segment ∧ e2.position = wEntry.position ∧
      e2.joined_at = wEntry.joined_at ∧ e2.queue_date = wEntry.queue_date) :=
  ⟨⟨by decide, by decide⟩,
   C8_patch_semantics wStore wEntry
     { notifiedAt5Min := some (JsonVal.bool true), estimatedWaitMinutes := none }
     (by decide) (by decide)⟩

/-- C9: each of the six document-store accessors attempts its index
creations on every access, swallows any exception raised there (still
returning the named collection), and is idempotent: with no exception, a
second access returns exactly the state of the first. -/
theorem C9_collection_accessors (db : MongoDB) (raises : String → Bool) (hWF : db.WF) :
    ((get_users_collection db raises).1.name = "users" ∧
      (get_users_collection db (fun _ => true)).1 = db.get_collection "users" ∧
      get_users_collection ((get_users_collection db (fun _ => false)).2) (fun _ => false) =
        get_users_collection db (fun _ => false)) ∧
    ((get_menu_collection db raises).1.name = "menu_items" ∧
      (get_menu_collection db (fun _ => true)).1 = db.get_collection "menu_items" ∧
      get_menu_collection ((get_menu_collection db (fun _ => false)).2) (fun _ => false) =
        get_menu_collection db (fun _ => false)) ∧
    ((get_feedback_collection db raises).1.name = "feedback" ∧
      (get_feedback_collection db (fun _ => true)).1 = db.get_collection "feedback" ∧
      get_feedback_collection ((get_feedback_collection db (fun _ => false)).2)
        (fun _ => false) = get_feedback_collection db (fun _ => false)) ∧
    ((get_orders_collection db raises).1.name = "orders" ∧
      (get_orders_collection db (fun _ => true)).1 = db.get_collection "orders" ∧
      get_orders_collection ((get_orders_collection db (fun _ => false)).2) (fun _ => false) =
        get_orders_collection db (fun _ => false)) ∧
    ((get_reservations_collection db raises).1.name = "reservations" ∧
      (get_reservations_collection db (fun _ => true)).1 = db.get_collection "reservations" ∧
      get_reservations_collection ((get_reservations_collection db (fun _ => false)).2)
        (fun _ => false) = get_reservations_collection db (fun _ => false)) ∧
    ((get_waiting_queue_collection db raises).1.name = "reservation_waiting_queue" ∧
      (get_waiting_queue_collection db (fun _ => true)).1 =
        db.get_collection "reservation_waiting_queue" ∧
      get_waiting_queue_collection ((get_waiting_queue_collection db (fun _ => false)).2)
        (fun _ => false) = get_waiting_queue_collection db (fun _ => false)) :=
  ⟨⟨coll_name _ _ db raises hWF, coll_raise_all _ _ db, coll_idem _ _ db⟩,
   ⟨coll_name _ _ db raises hWF, coll_raise_all _ _ db, coll_idem _ _ db⟩,
   ⟨coll_name _ _ db raises hWF, coll_raise_all _ _ db, coll_idem _ _ db⟩,
   ⟨coll_name _ _ db raises hWF, coll_raise_all _ _ db, coll_idem _ _ db⟩,
   ⟨coll_name _ _ db raises hWF, coll_raise_all _ _ db, coll_idem _ _ db⟩,
   ⟨coll_name _ _ db raises hWF, coll_raise_all _ _ db, coll_idem _ _ db⟩⟩

/-- C9 witness: the accessor properties at the empty document store with a
raising and a non-raising index oracle. -/
theorem C9_witness :
    (MongoDB.mk []).WF ∧
    (get_users_collection (MongoDB.mk []) (fun _ => true)).1.name = "users" ∧
    (get_users_collection (MongoDB.mk []) (fun _ => true)).1 =
      (MongoDB.mk []).get_collection "users" ∧
    get_users_collection ((get_users_collection (MongoDB.mk []) (fun _ => false)).2)
      (fun _ => false) = get_users_collection (MongoDB.mk []) (fun _ => false) :=
  have hWF : (MongoDB.mk []).WF := fun kv h => absurd h (List.not_mem_nil kv)
  ⟨hWF,
   (C9_collection_accessors (MongoDB.mk []) (fun _ => true) hWF).1.1,
   (C9_collection_accessors (MongoDB.mk []) (fun _ => true) hWF).1.2.1,
   (C9_collection_accessors (MongoDB.mk []) (fun _ => true) hWF).1.2.2⟩

/-- C10: a complete join payload reusing the id of an existing entry of the
same (queueDate, guests, hall, segment) group does not fail and does not
grow the store: it returns 201, the merged row replaces the old one (total
row count unchanged, group size unchanged), and its position is the
pre-existing group count plus one, the count still including the replaced
row. -/
theorem C10_rejoin (st : Store) (e : QueueEntry) (p : JoinPayload) (hWF : st.WF)
    (he : e ∈ st.entries) (hreq : requiredMissing p = none)
    (hid : p.id = some e.id) (hqd : p.queueDate = some e.queue_date)
    (hg : p.guests = some e.guests) (hhl : p.hall = some e.hall)
    (hsg : p.segment = some e.segment) :
    ∃ e2 : QueueEntry,
      (join_queue st p).1 = (201, Except.ok e2) ∧
      e2.position = (groupRows st e.queue_date e.guests e.hall e.segment).length + 1 ∧
      ((join_queue st p).2).entries.length = st.entries.length ∧
      (groupRows ((join_queue st p).2) e.queue_date e.guests e.hall e.segment).length =
        (groupRows st e.queue_date e.guests e.hall e.segment).length := by
  rcases requiredMissing_none hreq with
    ⟨i0, nm, g0, nmeth, ct, hl0, sg0, qd0, hi0, hnm, hg0, hnmeth, hct, hhl0, hsg0, hqd0⟩
  rw [join_success hid hnm hg hnmeth hct hhl hsg hqd st]
  refine ⟨mkJoinEntry st e.id nm e.guests nmeth ct e.hall e.segment e.queue_date
    p.notifiedAt5Min, rfl, rfl, ?_, ?_⟩
  · simp only [List.length_append, List.length_cons, List.length_nil]
    have := length_filter_ne_id he hWF.1
    omega
  · have hegroup : e ∈ groupRows st e.queue_date e.guests e.hall e.segment :=
      List.mem_filter.mpr ⟨he, inGroup_self e⟩
    have hgnodup : ((groupRows st e.queue_date e.guests e.hall e.segment).map
        QueueEntry.id).Nodup :=
      ((List.filter_sublist st.entries).map QueueEntry.id).nodup hWF.1
    have hEK : inGroup e.queue_date e.guests e.hall e.segment
        (mkJoinEntry st e.id nm e.guests nmeth ct e.hall e.segment e.queue_date
          p.notifiedAt5Min) = true :=
      (mkJoinEntry_inGroup st e.id nm e.guests nmeth ct e.hall e.segment e.queue_date
        p.notifiedAt5Min e.queue_date e.guests e.hall e.segment).mpr ⟨rfl, rfl, rfl, rfl⟩
    have hgrp : groupRows
        { entries := st.entries.filter (fun x => x.id ≠ e.id) ++
            [mkJoinEntry st e.id nm e.guests nmeth ct e.hall e.segment e.queue_date
              p.notifiedAt5Min],
          now := st.now + 1 } e.queue_date e.guests e.hall e.segment =
        (groupRows st e.queue_date e.guests e.hall e.segment).filter
          (fun x => x.id ≠ e.id) ++
        [mkJoinEntry st e.id nm e.guests nmeth ct e.hall e.segment e.queue_date
          p.notifiedAt5Min] := by
      unfold groupRows
      rw [List.filter_append]
      congr 1
      · rw [List.filter_filter, List.filter_filter]
        exact List.filter_congr (fun x _ => Bool.and_comm _ _)
      · simp [List.filter_cons, hEK]
    rw [hgrp, List.length_append, List.length_cons, List.length_nil]
    have := length_filter_ne_id hegroup hgnodup
    omega

/-- C10 witness: re-joining the one-row store with a payload reusing id "a"
and the same group key. -/
theorem C10_witness :
    (wStore.WF ∧ wEntry ∈ wStore.entries ∧
      requiredMissing (samplePayload "a" "second") = none ∧
      (samplePayload "a" "second").id = some wEntry.id ∧
      (samplePayload "a" "second").queueDate = some wEntry.queue_date ∧
      (samplePayload "a" "second").guests = some wEntry.guests ∧
      (samplePayload "a" "second").hall = some wEntry.hall ∧
      (samplePayload "a" "second").segment = some wEntry.segment) ∧
    (∃ e2 : QueueEntry,
      (join_queue wStore (samplePayload "a" "second")).1 = (201, Except.ok e2) ∧
      e2.position =
        (groupRows wStore wEntry.queue_date wEntry.guests wEntry.hall
          wEntry.segment).length + 1 ∧
      ((join_queue wStore (samplePayload "a" "second")).2).entries.length =
        wStore.entries.length ∧
      (groupRows ((join_queue wStore (samplePayload "a" "second")).2) wEntry.queue_date
          wEntry.guests wEntry.hall wEntry.segment).length =
        (groupRows wStore wEntry.queue_date wEntry.guests wEntry.hall
          wEntry.segment).length) :=
  ⟨⟨by decide, by decide, by decide, by decide, by decide, by decide, by decide, by decide⟩,
   C10_rejoin wStore wEntry (samplePayload "a" "second") (by decide) (by decide) (by decide)
     (by decide) (by decide) (by decide) (by decide) (by decide)⟩

end RMS
